import Mathlib

/-!
Verification of the FusionSDF repository's natural-language specification
against its source code, via a shallow embedding in Lean 4.

Embedding conventions:
* Python floats are idealised as real numbers (`ℝ`) for the geometric code
  (`fusionsdf/transform.py`, `fusionsdf/pose.py`), and as rationals (`ℚ`) for
  the purely arithmetic builder code (`fusionsdf/util.py`, `fusionsdf/sdf.py`)
  so that concrete runs are decidable.
* Python strings are Lean `String`s; `str.lower` is modelled on the ASCII
  fragment.
* Python dicts (which preserve insertion order and update in place) are
  modelled as association lists with an update-or-append operation.
* `math.atan2 y x` is modelled as `Complex.arg ⟨x, y⟩`, the standard
  mathematical atan2 on reals.
-/

/-! ## fusionsdf/util.py : normalize_name

Python source:
`name.lower()`, then `re.sub(r'[^a-z0-9_]+', '_', name)` (each maximal run of
characters outside [a-z0-9_] becomes one underscore), then `name.strip('_')`.
`str.lower` is modelled on ASCII: codepoints 65..90 are shifted by +32.
-/

def lowerChar (c : Char) : Char :=
  if 65 ≤ c.toNat ∧ c.toNat ≤ 90 then Char.ofNat (c.toNat + 32) else c

/-- A character matching the regex class `[a-z0-9_]`. -/
def isNameChar (c : Char) : Bool :=
  (97 ≤ c.toNat && c.toNat ≤ 122) || (48 ≤ c.toNat && c.toNat ≤ 57) || c.toNat == 95

/-- `re.sub(r'[^a-z0-9_]+', '_', ·)`: replace each maximal run of characters
outside `[a-z0-9_]` by a single underscore.  The `Bool` argument records
whether the previous character was part of such a run. -/
def squashNonName : Bool → List Char → List Char
  | _, [] => []
  | prevBad, c :: cs =>
    if isNameChar c then c :: squashNonName false cs
    else if prevBad then squashNonName true cs
    else '_' :: squashNonName true cs

/-- Python `str.strip('_')`: drop all leading and trailing underscores. -/
def stripUnderscores (l : List Char) : List Char :=
  (((l.dropWhile (· == '_')).reverse).dropWhile (· == '_')).reverse

/-- `fusionsdf/util.py`, `normalize_name`. -/
def normalize_name (s : String) : String :=
  ⟨stripUnderscores (squashNonName false (s.data.map lowerChar))⟩

/-! ## fusionsdf/util.py : unit conversions and parallel-axis theorem -/

/-- `fusionsdf/util.py`, `cm_to_m`, scalar case. -/
def cm_to_m (cm : ℚ) : ℚ := cm / 100

/-- `fusionsdf/util.py`, `cm_to_m`, list case. -/
def cm_to_m_list (cm : List ℚ) : List ℚ := cm.map (fun value => value / 100)

/-- `fusionsdf/util.py`, `kg_cm2_to_kg_m2`. -/
def kg_cm2_to_kg_m2 (kg_cm2 : ℚ) : ℚ := kg_cm2 / 10000

/-- `fusionsdf/util.py`, `world_inertia_to_com_inertia`.  The Python function
receives the inertia as a 6-element list, the center of mass as an indexable
triple and the mass as a float; `zip` truncates to the shorter list, which is
`List.zipWith`'s semantics. -/
def world_inertia_to_com_inertia (inertia : List ℚ) (center_of_mass : ℚ × ℚ × ℚ)
    (mass : ℚ) : List ℚ :=
  let x := center_of_mass.1
  let y := center_of_mass.2.1
  let z := center_of_mass.2.2
  let translation_matrix : List ℚ :=
    [y ^ 2 + z ^ 2, x ^ 2 + z ^ 2, x ^ 2 + y ^ 2, -x * y, -y * z, -x * z]
  List.zipWith (fun i t => i - mass * t) inertia translation_matrix

/-! ## Helper lemmas about the `normalize_name` pipeline -/

theorem isNameChar_iff (c : Char) :
    isNameChar c = true ↔
      (97 ≤ c.toNat ∧ c.toNat ≤ 122) ∨ (48 ≤ c.toNat ∧ c.toNat ≤ 57) ∨ c.toNat = 95 := by
  simp only [isNameChar, Bool.or_eq_true, Bool.and_eq_true, decide_eq_true_iff, beq_iff_eq]
  tauto

theorem lowerChar_of_isNameChar {c : Char} (h : isNameChar c = true) : lowerChar c = c := by
  rw [isNameChar_iff] at h
  unfold lowerChar
  rw [if_neg]
  omega

theorem isNameChar_underscore : isNameChar '_' = true := by decide

theorem mem_squashNonName {c : Char} :
    ∀ (b : Bool) (l : List Char), c ∈ squashNonName b l → isNameChar c = true := by
  intro b l
  induction l generalizing b with
  | nil => intro h; simp [squashNonName] at h
  | cons a l ih =>
    intro h
    by_cases ha : isNameChar a = true
    · rw [squashNonName, if_pos ha] at h
      rcases List.mem_cons.mp h with h | h
      · exact h ▸ ha
      · exact ih false h
    · rw [squashNonName, if_neg ha] at h
      cases b with
      | true => exact ih true (by simpa using h)
      | false =>
        simp only [Bool.false_eq_true, if_false] at h
        rcases List.mem_cons.mp h with h | h
        · exact h ▸ isNameChar_underscore
        · exact ih true h

theorem squashNonName_of_allName {l : List Char} (h : ∀ c ∈ l, isNameChar c = true) :
    ∀ b, squashNonName b l = l := by
  induction l with
  | nil => intro b; rfl
  | cons a l ih =>
    intro b
    have ha : isNameChar a = true := h a (List.mem_cons_self a l)
    rw [squashNonName, if_pos ha, ih (fun c hc => h c (List.mem_cons_of_mem a hc)) false]

theorem head?_dropWhile (p : Char → Bool) :
    ∀ (l : List Char) {c : Char}, (l.dropWhile p).head? = some c → p c = false := by
  intro l
  induction l with
  | nil => intro c h; simp at h
  | cons a l ih =>
    intro c h
    by_cases ha : p a
    · rw [List.dropWhile_cons, if_pos ha] at h
      exact ih h
    · rw [List.dropWhile_cons, if_neg ha] at h
      simp only [List.head?_cons, Option.some.injEq] at h
      rw [← h]
      exact Bool.of_not_eq_true ha

theorem dropWhile_eq_self_of_head? {p : Char → Bool} {l : List Char}
    (h : ∀ c, l.head? = some c → p c = false) : l.dropWhile p = l := by
  cases l with
  | nil => rfl
  | cons a l =>
    rw [List.dropWhile_cons, if_neg]
    simp [h a rfl]

theorem getLast?_dropWhile (p : Char → Bool) :
    ∀ (l : List Char), l.dropWhile p ≠ [] → (l.dropWhile p).getLast? = l.getLast? := by
  intro l
  induction l with
  | nil => intro h; simp at h
  | cons a l ih =>
    intro h
    by_cases ha : p a
    · rw [List.dropWhile_cons, if_pos ha] at h ⊢
      have hl : l ≠ [] := by
        intro he; rw [he] at h; simp at h
      rw [ih h]
      cases l with
      | nil => exact absurd rfl hl
      | cons b t => rw [List.getLast?_cons_cons]
    · rw [List.dropWhile_cons, if_neg ha]

theorem mem_stripUnderscores {c : Char} {l : List Char} (h : c ∈ stripUnderscores l) : c ∈ l := by
  unfold stripUnderscores at h
  rw [List.mem_reverse] at h
  have h1 := List.dropWhile_sublist (l := (l.dropWhile (· == '_')).reverse) (p := (· == '_'))
  have h2 := h1.mem h
  rw [List.mem_reverse] at h2
  exact (List.dropWhile_sublist (l := l) (p := (· == '_'))).mem h2

theorem stripUnderscores_head? {l : List Char} {c : Char}
    (h : (stripUnderscores l).head? = some c) : (c == '_') = false := by
  unfold stripUnderscores at h
  rw [List.head?_reverse] at h
  have hne : ((l.dropWhile (· == '_')).reverse).dropWhile (· == '_') ≠ [] := by
    intro he; rw [he] at h; simp at h
  rw [getLast?_dropWhile _ _ hne, List.getLast?_reverse] at h
  exact head?_dropWhile (fun x => x == '_') l h

theorem stripUnderscores_getLast? {l : List Char} {c : Char}
    (h : (stripUnderscores l).getLast? = some c) : (c == '_') = false := by
  unfold stripUnderscores at h
  rw [List.getLast?_reverse] at h
  exact head?_dropWhile (fun x => x == '_') _ h

theorem stripUnderscores_of_no_edge {l : List Char}
    (h1 : ∀ c, l.head? = some c → (c == '_') = false)
    (h2 : ∀ c, l.getLast? = some c → (c == '_') = false) : stripUnderscores l = l := by
  unfold stripUnderscores
  rw [dropWhile_eq_self_of_head? h1]
  rw [dropWhile_eq_self_of_head? (p := (· == '_')) (l := l.reverse)
    (fun c hc => h2 c (by rwa [List.head?_reverse] at hc))]
  exact List.reverse_reverse l

/-! ## Claims C5, C9, C10 -/

/-- Claim C5: `world_inertia_to_com_inertia [xx, yy, zz, xy, yz, xz] (x, y, z) mass`
returns `[xx - mass*(y^2+z^2), yy - mass*(x^2+z^2), zz - mass*(x^2+y^2),
xy + mass*x*y, yz + mass*y*z, xz + mass*x*z]`; in particular, for mass 2,
center of mass (1, 0, 0) and inertia (1, 1, 1, 0, 0, 0) the result is
(1, -1, -1, 0, 0, 0). -/
theorem C5_parallel_axis :
    (∀ xx yy zz xy yz xz x y z m : ℚ,
      world_inertia_to_com_inertia [xx, yy, zz, xy, yz, xz] (x, y, z) m =
        [xx - m * (y ^ 2 + z ^ 2), yy - m * (x ^ 2 + z ^ 2), zz - m * (x ^ 2 + y ^ 2),
         xy + m * (x * y), yz + m * (y * z), xz + m * (x * z)]) ∧
    world_inertia_to_com_inertia [1, 1, 1, 0, 0, 0] (1, 0, 0) 2 = [1, -1, -1, 0, 0, 0] := by
  constructor
  · intro xx yy zz xy yz xz x y z m
    simp only [world_inertia_to_com_inertia, List.zipWith, List.cons.injEq, and_true]
    refine ⟨by ring_nf, by ring_nf, by ring_nf, by ring_nf, by ring_nf, by ring_nf⟩
  · norm_num [world_inertia_to_com_inertia, List.zipWith]

/-- The property claimed by C9, as stated: the normalised name is non-empty,
all its characters are in `[a-z0-9_]`, and it has no leading or trailing
underscore. -/
def C9_claimed_property (s : String) : Prop :=
  (normalize_name s).data ≠ [] ∧
  (∀ c ∈ (normalize_name s).data, isNameChar c = true) ∧
  (normalize_name s).data.head? ≠ some '_' ∧
  (normalize_name s).data.getLast? ≠ some '_'

/-- Claim C9, counterexample: on the input `"!"` (no alphanumeric characters),
`normalize_name` returns the empty string, which does not match `[a-z0-9_]+`. -/
theorem C9_counterexample : ¬ C9_claimed_property "!" := by
  intro h
  exact h.1 (by decide)

/-- Claim C9, amended: for every input string, `normalize_name` returns a
string all of whose characters are in `[a-z0-9_]` (so it is case-normalised),
with no leading or trailing underscore; the result may be empty (exactly when
the input contains no character in `[a-z0-9]`), so the original claim's
non-emptiness part fails. -/
theorem C9_normalize_name_shape (s : String) :
    (∀ c ∈ (normalize_name s).data, isNameChar c = true) ∧
    (normalize_name s).data.head? ≠ some '_' ∧
    (normalize_name s).data.getLast? ≠ some '_' := by
  refine ⟨?_, ?_, ?_⟩
  · intro c hc
    exact mem_squashNonName false _ (mem_stripUnderscores hc)
  · intro h
    have := stripUnderscores_head? (l := squashNonName false (s.data.map lowerChar)) h
    simp at this
  · intro h
    have := stripUnderscores_getLast? (l := squashNonName false (s.data.map lowerChar)) h
    simp at this

/-- Claim C10: `normalize_name` is idempotent. -/
theorem C10_normalize_name_idempotent (s : String) :
    normalize_name (normalize_name s) = normalize_name s := by
  have hall : ∀ c ∈ (normalize_name s).data, isNameChar c = true := fun c hc =>
    mem_squashNonName false _ (mem_stripUnderscores hc)
  have hmap : (normalize_name s).data.map lowerChar = (normalize_name s).data := by
    have := List.map_congr_left (f := lowerChar) (g := id)
      (fun c hc => lowerChar_of_isNameChar (hall c hc))
    rw [this, List.map_id]
  have hsquash : squashNonName false (normalize_name s).data = (normalize_name s).data :=
    squashNonName_of_allName hall false
  have hstrip : stripUnderscores (normalize_name s).data = (normalize_name s).data := by
    refine stripUnderscores_of_no_edge (fun c hc => ?_) (fun c hc => ?_)
    · exact stripUnderscores_head? (l := squashNonName false (s.data.map lowerChar)) hc
    · exact stripUnderscores_getLast? (l := squashNonName false (s.data.map lowerChar)) hc
  show (⟨stripUnderscores (squashNonName false ((normalize_name s).data.map lowerChar))⟩ : String)
    = normalize_name s
  rw [hmap, hsquash, hstrip]

/-! ## fusionsdf/transform.py : the Transform class

A `Transform` is its 4x4 homogeneous matrix (`self.matrix`), embedded as a
function `Fin 4 → Fin 4 → ℝ`.  `matrix_multiply` is the source's generic
static method (sum over the inner dimension).  Branches of the float code
compare real numbers, so these definitions are noncomputable; witnesses
evaluate them with `simp`/`norm_num` instead of `decide`.
-/

/-- `math.atan2 y x`, modelled as the argument of the complex number `x + y*i`
(in `(-π, π]`, with `atan2 0 0 = 0`, as in Python). -/
noncomputable def atan2 (y x : ℝ) : ℝ := Complex.arg ⟨x, y⟩

/-- A 4x4 matrix of floats, the representation of a `Transform`. -/
def TMatrix : Type := Fin 4 → Fin 4 → ℝ

/-- `Transform.matrix_multiply` (generic matrix product, used for 4x4, 3x3 and
3x1 operands in the source). -/
def matrix_multiply {m n p : ℕ} (A : Fin m → Fin n → ℝ) (B : Fin n → Fin p → ℝ) :
    Fin m → Fin p → ℝ :=
  fun i j => ∑ k, A i k * B k j

/-- The matrix a `Transform()` starts from (identity). -/
def identityTransform : TMatrix := fun i j => if i = j then 1 else 0

/-- The 3x3 rotation block `R = [row[:3] for row in self.matrix[:3]]`. -/
def rotBlock (M : TMatrix) : Fin 3 → Fin 3 → ℝ :=
  fun i j => M i.castSucc j.castSucc

/-- The translation part `t = [row[3] for row in self.matrix[:3]]`. -/
def translPart (M : TMatrix) : Fin 3 → ℝ := fun i => M i.castSucc 3

/-- `Transform.get_translation`. -/
def get_translation (M : TMatrix) : List ℝ := [translPart M 0, translPart M 1, translPart M 2]

/-- `Transform.set_translation`. -/
def set_translation (M : TMatrix) (translation : Fin 3 → ℝ) : TMatrix :=
  fun i j => if h : i.val < 3 ∧ j.val = 3 then translation ⟨i.val, h.1⟩ else M i j

/-- `Transform.__mul__`. -/
def transform_mul (A B : TMatrix) : TMatrix := matrix_multiply A B

/-- `Transform.inverse`: transpose of the rotation block, translation
`-R^T t`, bottom row `[0, 0, 0, 1]`. -/
def inverse (M : TMatrix) : TMatrix :=
  let R := rotBlock M
  let t := translPart M
  let R_inv : Fin 3 → Fin 3 → ℝ := fun i j => R j i
  let t_inv := matrix_multiply R_inv (fun i (_ : Fin 1) => -t i)
  fun i j =>
    if hi : i.val < 3 then
      if hj : j.val < 3 then R_inv ⟨i.val, hi⟩ ⟨j.val, hj⟩ else t_inv ⟨i.val, hi⟩ 0
    else if j.val = 3 then 1 else 0

/-- `math.isclose(a, b, abs_tol=1e-6)`: Python keeps the default relative
tolerance `1e-9`, so the test is
`|a - b| ≤ max(1e-9 * max(|a|, |b|), 1e-6)`. -/
def isclose (a b : ℝ) : Prop := |a - b| ≤ max (1e-9 * max |a| |b|) 1e-6

/-- `Transform.__eq__`: componentwise `isclose` over the 4x4 matrices. -/
def transform_eq (A B : TMatrix) : Prop := ∀ i j, isclose (A i j) (B i j)

/-- The 3x3 rotation `Rz(yaw) * Ry(pitch) * Rx(roll)` built by
`Transform.set_rotation_rpy`. -/
noncomputable def rotation_rpy (roll pitch yaw : ℝ) : Fin 3 → Fin 3 → ℝ :=
  let Rx : Fin 3 → Fin 3 → ℝ :=
    ![![1, 0, 0],
      ![0, Real.cos roll, -Real.sin roll],
      ![0, Real.sin roll, Real.cos roll]]
  let Ry : Fin 3 → Fin 3 → ℝ :=
    ![![Real.cos pitch, 0, Real.sin pitch],
      ![0, 1, 0],
      ![-Real.sin pitch, 0, Real.cos pitch]]
  let Rz : Fin 3 → Fin 3 → ℝ :=
    ![![Real.cos yaw, -Real.sin yaw, 0],
      ![Real.sin yaw, Real.cos yaw, 0],
      ![0, 0, 1]]
  matrix_multiply (matrix_multiply Rz Ry) Rx

/-- `Transform.set_rotation_rpy`: overwrite the 3x3 rotation block with
`Rz(yaw) * Ry(pitch) * Rx(roll)`, leaving the rest of the matrix unchanged. -/
noncomputable def set_rotation_rpy (M : TMatrix) (roll pitch yaw : ℝ) : TMatrix :=
  fun i j =>
    if h : i.val < 3 ∧ j.val < 3 then rotation_rpy roll pitch yaw ⟨i.val, h.1⟩ ⟨j.val, h.2⟩
    else M i j

/-- `Transform.get_rotation_rpy`, returning `[roll, pitch, yaw]`. -/
noncomputable def get_rotation_rpy (M : TMatrix) : List ℝ :=
  let R := rotBlock M
  let cos_pitch := Real.sqrt (R 0 0 ^ 2 + R 1 0 ^ 2)
  if cos_pitch < 1e-6 then
    let pitch := Real.arcsin (-R 2 0)
    let yaw : ℝ := 0
    let roll := if 0 < pitch then atan2 (R 0 1) (R 1 1) else atan2 (-R 0 1) (R 1 1)
    [roll, pitch, yaw]
  else
    [atan2 (R 2 1) (R 2 2), atan2 (-R 2 0) cos_pitch, atan2 (R 1 0) (R 0 0)]

/-- `Transform.__init__(translation, rotation)`: identity matrix, then
`set_translation`, then `set_rotation_rpy`. -/
noncomputable def transform_init (translation : Fin 3 → ℝ) (rotation : ℝ × ℝ × ℝ) : TMatrix :=
  set_rotation_rpy (set_translation identityTransform translation)
    rotation.1 rotation.2.1 rotation.2.2

/-- `fusionsdf/util.py`, `matrix3d_to_rpy` (applied to the 3x3 rotation block
of a CAD `Matrix3D`), returning `[roll, pitch, yaw]`. -/
noncomputable def matrix3d_to_rpy (R : Fin 3 → Fin 3 → ℝ) : List ℝ :=
  let sy := Real.sqrt (R 0 0 ^ 2 + R 1 0 ^ 2)
  if sy < 1e-6 then
    [atan2 (-R 1 2) (R 1 1), atan2 (-R 2 0) sy, 0]
  else
    [atan2 (R 2 1) (R 2 2), atan2 (-R 2 0) sy, atan2 (R 1 0) (R 0 0)]

/-- Modelled from the spec (claim C3's wording, not from any source function):
the claimed two-branch roll-pitch-yaw extraction convention.  With
`s = sqrt(R00^2 + R10^2)`: if `s ≥ 1e-6` then
`[atan2 R21 R22, atan2 (-R20) s, atan2 R10 R00]`; otherwise
`pitch = asin(-R20)`, `yaw = 0`, and `roll = atan2 R01 R11` when `pitch > 0`
else `atan2 (-R01) R11`. -/
noncomputable def claimed_rpy_convention (R : Fin 3 → Fin 3 → ℝ) : List ℝ :=
  let s := Real.sqrt (R 0 0 ^ 2 + R 1 0 ^ 2)
  if 1e-6 ≤ s then
    [atan2 (R 2 1) (R 2 2), atan2 (-R 2 0) s, atan2 (R 1 0) (R 0 0)]
  else
    let pitch := Real.arcsin (-R 2 0)
    [if 0 < pitch then atan2 (R 0 1) (R 1 1) else atan2 (-R 0 1) (R 1 1), pitch, 0]

/-! ## Claim C1 : the inverse law for rigid transforms -/

theorem isclose_refl (a : ℝ) : isclose a a := by
  unfold isclose
  rw [sub_self, abs_zero]
  exact le_max_of_le_right (by norm_num)

theorem transform_eq_of_eq {A B : TMatrix} (h : A = B) : transform_eq A B := by
  intro i j
  rw [h]
  exact isclose_refl _

theorem rot_entry_eq (M : TMatrix) {a b : Fin 4} (ha : a.val < 3) (hb : b.val < 3)
    (h : Matrix.of (rotBlock M) * (Matrix.of (rotBlock M)).transpose = 1) :
    M a 0 * M b 0 + M a 1 * M b 1 + M a 2 * M b 2 = if a = b then 1 else 0 := by
  have h2 := congrFun (congrFun h ⟨a.val, ha⟩) ⟨b.val, hb⟩
  have ea : ((⟨a.val, ha⟩ : Fin 3)).castSucc = a := Fin.ext rfl
  have eb : ((⟨b.val, hb⟩ : Fin 3)).castSucc = b := Fin.ext rfl
  simp only [Matrix.mul_apply, Matrix.one_apply, Matrix.transpose_apply, Fin.sum_univ_three,
    Matrix.of_apply, rotBlock, ea, eb] at h2
  have hiff : ((⟨a.val, ha⟩ : Fin 3) = ⟨b.val, hb⟩) ↔ (a = b) := by
    rw [Fin.ext_iff, Fin.ext_iff]
  rw [if_congr hiff rfl rfl] at h2
  convert h2 using 2

theorem col_entry_eq (M : TMatrix) {a b : Fin 4} (ha : a.val < 3) (hb : b.val < 3)
    (h : (Matrix.of (rotBlock M)).transpose * Matrix.of (rotBlock M) = 1) :
    M 0 a * M 0 b + M 1 a * M 1 b + M 2 a * M 2 b = if a = b then 1 else 0 := by
  have h2 := congrFun (congrFun h ⟨a.val, ha⟩) ⟨b.val, hb⟩
  have ea : ((⟨a.val, ha⟩ : Fin 3)).castSucc = a := Fin.ext rfl
  have eb : ((⟨b.val, hb⟩ : Fin 3)).castSucc = b := Fin.ext rfl
  simp only [Matrix.mul_apply, Matrix.one_apply, Matrix.transpose_apply, Fin.sum_univ_three,
    Matrix.of_apply, rotBlock, ea, eb] at h2
  have hiff : ((⟨a.val, ha⟩ : Fin 3) = ⟨b.val, hb⟩) ↔ (a = b) := by
    rw [Fin.ext_iff, Fin.ext_iff]
  rw [if_congr hiff rfl rfl] at h2
  convert h2 using 2

theorem mul_inverse_exact (M : TMatrix)
    (hrow : ∀ j, M 3 j = if j = 3 then 1 else 0)
    (horth : (Matrix.of (rotBlock M)).transpose * Matrix.of (rotBlock M) = 1) :
    transform_mul M (inverse M) = identityTransform := by
  have hRRt : Matrix.of (rotBlock M) * (Matrix.of (rotBlock M)).transpose = 1 :=
    Matrix.mul_eq_one_comm.mp horth
  have e00 : M 0 0 * M 0 0 + M 0 1 * M 0 1 + M 0 2 * M 0 2 = 1 := by
    simpa using rot_entry_eq M (by decide) (by decide) hRRt (a := 0) (b := 0)
  have e01 : M 0 0 * M 1 0 + M 0 1 * M 1 1 + M 0 2 * M 1 2 = 0 := by
    simpa using rot_entry_eq M (by decide) (by decide) hRRt (a := 0) (b := 1)
  have e02 : M 0 0 * M 2 0 + M 0 1 * M 2 1 + M 0 2 * M 2 2 = 0 := by
    simpa using rot_entry_eq M (by decide) (by decide) hRRt (a := 0) (b := 2)
  have e10 : M 1 0 * M 0 0 + M 1 1 * M 0 1 + M 1 2 * M 0 2 = 0 := by
    simpa using rot_entry_eq M (by decide) (by decide) hRRt (a := 1) (b := 0)
  have e11 : M 1 0 * M 1 0 + M 1 1 * M 1 1 + M 1 2 * M 1 2 = 1 := by
    simpa using rot_entry_eq M (by decide) (by decide) hRRt (a := 1) (b := 1)
  have e12 : M 1 0 * M 2 0 + M 1 1 * M 2 1 + M 1 2 * M 2 2 = 0 := by
    simpa using rot_entry_eq M (by decide) (by decide) hRRt (a := 1) (b := 2)
  have e20 : M 2 0 * M 0 0 + M 2 1 * M 0 1 + M 2 2 * M 0 2 = 0 := by
    simpa using rot_entry_eq M (by decide) (by decide) hRRt (a := 2) (b := 0)
  have e21 : M 2 0 * M 1 0 + M 2 1 * M 1 1 + M 2 2 * M 1 2 = 0 := by
    simpa using rot_entry_eq M (by decide) (by decide) hRRt (a := 2) (b := 1)
  have e22 : M 2 0 * M 2 0 + M 2 1 * M 2 1 + M 2 2 * M 2 2 = 1 := by
    simpa using rot_entry_eq M (by decide) (by decide) hRRt (a := 2) (b := 2)
  have hc2 : (Fin.castSucc (2 : Fin 3) : Fin 4) = 2 := rfl
  funext i j
  fin_cases i <;> fin_cases j <;>
    simp +decide [transform_mul, matrix_multiply, inverse, Fin.sum_univ_four, Fin.sum_univ_three,
      identityTransform, rotBlock, translPart, hrow, hc2]
  · exact e00
  · exact e01
  · exact e02
  · linear_combination (-(M 0 3)) * e00 + (-(M 1 3)) * e01 + (-(M 2 3)) * e02
  · exact e10
  · exact e11
  · exact e12
  · linear_combination (-(M 0 3)) * e10 + (-(M 1 3)) * e11 + (-(M 2 3)) * e12
  · exact e20
  · exact e21
  · exact e22
  · linear_combination (-(M 0 3)) * e20 + (-(M 1 3)) * e21 + (-(M 2 3)) * e22

theorem inverse_mul_exact (M : TMatrix)
    (hrow : ∀ j, M 3 j = if j = 3 then 1 else 0)
    (horth : (Matrix.of (rotBlock M)).transpose * Matrix.of (rotBlock M) = 1) :
    transform_mul (inverse M) M = identityTransform := by
  have f00 : M 0 0 * M 0 0 + M 1 0 * M 1 0 + M 2 0 * M 2 0 = 1 := by
    simpa using col_entry_eq M (by decide) (by decide) horth (a := 0) (b := 0)
  have f01 : M 0 0 * M 0 1 + M 1 0 * M 1 1 + M 2 0 * M 2 1 = 0 := by
    simpa using col_entry_eq M (by decide) (by decide) horth (a := 0) (b := 1)
  have f02 : M 0 0 * M 0 2 + M 1 0 * M 1 2 + M 2 0 * M 2 2 = 0 := by
    simpa using col_entry_eq M (by decide) (by decide) horth (a := 0) (b := 2)
  have f10 : M 0 1 * M 0 0 + M 1 1 * M 1 0 + M 2 1 * M 2 0 = 0 := by
    simpa using col_entry_eq M (by decide) (by decide) horth (a := 1) (b := 0)
  have f11 : M 0 1 * M 0 1 + M 1 1 * M 1 1 + M 2 1 * M 2 1 = 1 := by
    simpa using col_entry_eq M (by decide) (by decide) horth (a := 1) (b := 1)
  have f12 : M 0 1 * M 0 2 + M 1 1 * M 1 2 + M 2 1 * M 2 2 = 0 := by
    simpa using col_entry_eq M (by decide) (by decide) horth (a := 1) (b := 2)
  have f20 : M 0 2 * M 0 0 + M 1 2 * M 1 0 + M 2 2 * M 2 0 = 0 := by
    simpa using col_entry_eq M (by decide) (by decide) horth (a := 2) (b := 0)
  have f21 : M 0 2 * M 0 1 + M 1 2 * M 1 1 + M 2 2 * M 2 1 = 0 := by
    simpa using col_entry_eq M (by decide) (by decide) horth (a := 2) (b := 1)
  have f22 : M 0 2 * M 0 2 + M 1 2 * M 1 2 + M 2 2 * M 2 2 = 1 := by
    simpa using col_entry_eq M (by decide) (by decide) horth (a := 2) (b := 2)
  have hc2 : (Fin.castSucc (2 : Fin 3) : Fin 4) = 2 := rfl
  funext i j
  fin_cases i <;> fin_cases j <;>
    simp +decide [transform_mul, matrix_multiply, inverse, Fin.sum_univ_four, Fin.sum_univ_three,
      identityTransform, rotBlock, translPart, hrow, hc2]
  · exact f00
  · exact f01
  · exact f02
  · ring
  · exact f10
  · exact f11
  · exact f12
  · ring
  · exact f20
  · exact f21
  · exact f22
  · ring

/-- Claim C1: for every Transform (a homogeneous 4x4 matrix, bottom row
`[0,0,0,1]`) whose 3x3 rotation block is orthonormal with determinant `+1`,
both `T * T.inverse()` and `T.inverse() * T` equal the identity Transform
under the source's componentwise `isclose(abs_tol=1e-6)` equality
(`Transform.__eq__`); in fact the products are exactly the identity matrix,
so `inverse` agrees with the true matrix inverse on all rigid transforms. -/
theorem C1_inverse_law (M : TMatrix)
    (hrow : ∀ j, M 3 j = if j = 3 then 1 else 0)
    (horth : (Matrix.of (rotBlock M)).transpose * Matrix.of (rotBlock M) = 1)
    (hdet : (Matrix.of (rotBlock M)).det = 1) :
    transform_eq (transform_mul M (inverse M)) identityTransform ∧
    transform_eq (transform_mul (inverse M) M) identityTransform :=
  ⟨transform_eq_of_eq (mul_inverse_exact M hrow horth),
   transform_eq_of_eq (inverse_mul_exact M hrow horth)⟩

/-- A concrete rigid transform: identity rotation, translation (1, 2, 3). -/
noncomputable def witnessRigidT : TMatrix :=
  ![![1, 0, 0, 1], ![0, 1, 0, 2], ![0, 0, 1, 3], ![0, 0, 0, 1]]

theorem witnessRigidT_row : ∀ j, witnessRigidT 3 j = if j = 3 then 1 else 0 := by
  intro j
  fin_cases j <;> simp +decide [witnessRigidT, Matrix.vecHead, Matrix.vecTail]

theorem witnessRigidT_orth :
    (Matrix.of (rotBlock witnessRigidT)).transpose * Matrix.of (rotBlock witnessRigidT) = 1 := by
  have hc0 : (Fin.castSucc (0 : Fin 3) : Fin 4) = 0 := rfl
  have hc1 : (Fin.castSucc (1 : Fin 3) : Fin 4) = 1 := rfl
  have hc2 : (Fin.castSucc (2 : Fin 3) : Fin 4) = 2 := rfl
  funext i j
  fin_cases i <;> fin_cases j <;>
    simp +decide [Matrix.mul_apply, Matrix.one_apply, Fin.sum_univ_three, rotBlock, witnessRigidT,
      hc0, hc1, hc2, Matrix.vecHead, Matrix.vecTail]

theorem witnessRigidT_det : (Matrix.of (rotBlock witnessRigidT)).det = 1 := by
  have hc0 : (Fin.castSucc (0 : Fin 3) : Fin 4) = 0 := rfl
  have hc1 : (Fin.castSucc (1 : Fin 3) : Fin 4) = 1 := rfl
  have hc2 : (Fin.castSucc (2 : Fin 3) : Fin 4) = 2 := rfl
  rw [Matrix.det_fin_three]
  simp +decide [rotBlock, witnessRigidT, Matrix.of_apply, hc0, hc1, hc2,
    Matrix.vecHead, Matrix.vecTail]

/-- Witness for claim C1, at the rigid transform with identity rotation and
translation (1, 2, 3). -/
theorem C1_inverse_law_witness :
    (∀ j, witnessRigidT 3 j = if j = 3 then 1 else 0) ∧
    transform_eq (transform_mul witnessRigidT (inverse witnessRigidT)) identityTransform ∧
    transform_eq (transform_mul (inverse witnessRigidT) witnessRigidT) identityTransform := by
  have h := C1_inverse_law witnessRigidT witnessRigidT_row witnessRigidT_orth witnessRigidT_det
  exact ⟨witnessRigidT_row, h.1, h.2⟩

/-! ## Lemmas about `atan2` -/

theorem atan2_cos_sin (θ : ℝ) (h : θ ∈ Set.Ioc (-Real.pi) Real.pi) :
    atan2 (Real.sin θ) (Real.cos θ) = θ := by
  unfold atan2
  rw [Complex.mk_eq_add_mul_I]
  exact_mod_cast Complex.arg_cos_add_sin_mul_I h

theorem atan2_smul_pos {c : ℝ} (hc : 0 < c) (y x : ℝ) : atan2 (c * y) (c * x) = atan2 y x := by
  unfold atan2
  have h : (⟨c * x, c * y⟩ : ℂ) = (c : ℂ) * ⟨x, y⟩ := by
    apply Complex.ext <;> simp
  rw [h]
  exact Complex.arg_real_mul _ hc

theorem abs_unit {y x : ℝ} (h : x ^ 2 + y ^ 2 = 1) : Complex.abs ⟨x, y⟩ = 1 := by
  rw [Complex.abs_apply, Complex.normSq_mk]
  rw [show x * x + y * y = 1 by nlinarith]
  exact Real.sqrt_one

theorem cos_atan2_unit {y x : ℝ} (h : x ^ 2 + y ^ 2 = 1) : Real.cos (atan2 y x) = x := by
  unfold atan2
  have hz : (⟨x, y⟩ : ℂ) ≠ 0 := by
    intro h0
    rw [Complex.ext_iff] at h0
    simp at h0
    rw [h0.1, h0.2] at h
    norm_num at h
  rw [Complex.cos_arg hz, abs_unit h]
  simp

theorem sin_atan2_unit {y x : ℝ} (h : x ^ 2 + y ^ 2 = 1) : Real.sin (atan2 y x) = y := by
  unfold atan2
  rw [Complex.sin_arg, abs_unit h]
  simp

theorem atan2_zero_one : atan2 0 1 = 0 := by
  unfold atan2
  rw [show (⟨1, 0⟩ : ℂ) = 1 from by apply Complex.ext <;> simp]
  exact Complex.arg_one

theorem atan2_pos_zero {y : ℝ} (hy : 0 < y) : atan2 y 0 = Real.pi / 2 := by
  unfold atan2
  rw [Complex.arg_eq_pi_div_two_iff]
  constructor <;> simp [hy]

theorem atan2_zero_zero : atan2 0 0 = 0 := by
  unfold atan2
  rw [show (⟨0, 0⟩ : ℂ) = 0 from by apply Complex.ext <;> simp]
  exact Complex.arg_zero

/-! ## Entry-level description of set_rotation_rpy / get_rotation_rpy -/

theorem rotation_rpy_entries (r p y : ℝ) :
    rotation_rpy r p y =
      ![![Real.cos y * Real.cos p,
          Real.cos y * Real.sin p * Real.sin r - Real.sin y * Real.cos r,
          Real.cos y * Real.sin p * Real.cos r + Real.sin y * Real.sin r],
        ![Real.sin y * Real.cos p,
          Real.sin y * Real.sin p * Real.sin r + Real.cos y * Real.cos r,
          Real.sin y * Real.sin p * Real.cos r - Real.cos y * Real.sin r],
        ![-Real.sin p, Real.cos p * Real.sin r, Real.cos p * Real.cos r]] := by
  funext i j
  fin_cases i <;> fin_cases j <;>
    (simp [rotation_rpy, matrix_multiply, Fin.sum_univ_three, Matrix.vecHead, Matrix.vecTail]
     <;> ring)

theorem rotBlock_set_rotation_rpy (M : TMatrix) (r p y : ℝ) :
    rotBlock (set_rotation_rpy M r p y) = rotation_rpy r p y := by
  funext i j
  show set_rotation_rpy M r p y i.castSucc j.castSucc = _
  rw [set_rotation_rpy, dif_pos ⟨i.isLt, j.isLt⟩]
  congr 1

theorem set_rotation_rpy_outside (M : TMatrix) (r p y : ℝ) {i j : Fin 4}
    (h : ¬(i.val < 3 ∧ j.val < 3)) : set_rotation_rpy M r p y i j = M i j := dif_neg h

theorem get_rotation_rpy_eq (M : TMatrix) :
    get_rotation_rpy M =
      if Real.sqrt ((rotBlock M 0 0) ^ 2 + (rotBlock M 1 0) ^ 2) < 1e-6 then
        [if 0 < Real.arcsin (-rotBlock M 2 0) then atan2 (rotBlock M 0 1) (rotBlock M 1 1)
         else atan2 (-rotBlock M 0 1) (rotBlock M 1 1),
         Real.arcsin (-rotBlock M 2 0), 0]
      else
        [atan2 (rotBlock M 2 1) (rotBlock M 2 2),
         atan2 (-rotBlock M 2 0) (Real.sqrt ((rotBlock M 0 0) ^ 2 + (rotBlock M 1 0) ^ 2)),
         atan2 (rotBlock M 1 0) (rotBlock M 0 0)] := rfl

theorem rotation_rpy_00 (r p y : ℝ) : rotation_rpy r p y 0 0 = Real.cos y * Real.cos p := by
  rw [rotation_rpy_entries]
  simp [Matrix.vecHead, Matrix.vecTail]

theorem rotation_rpy_01 (r p y : ℝ) :
    rotation_rpy r p y 0 1 = Real.cos y * Real.sin p * Real.sin r - Real.sin y * Real.cos r := by
  rw [rotation_rpy_entries]
  simp [Matrix.vecHead, Matrix.vecTail]

theorem rotation_rpy_02 (r p y : ℝ) :
    rotation_rpy r p y 0 2 = Real.cos y * Real.sin p * Real.cos r + Real.sin y * Real.sin r := by
  rw [rotation_rpy_entries]
  simp [Matrix.vecHead, Matrix.vecTail]

theorem rotation_rpy_10 (r p y : ℝ) : rotation_rpy r p y 1 0 = Real.sin y * Real.cos p := by
  rw [rotation_rpy_entries]
  simp [Matrix.vecHead, Matrix.vecTail]

theorem rotation_rpy_11 (r p y : ℝ) :
    rotation_rpy r p y 1 1 = Real.sin y * Real.sin p * Real.sin r + Real.cos y * Real.cos r := by
  rw [rotation_rpy_entries]
  simp [Matrix.vecHead, Matrix.vecTail]

theorem rotation_rpy_12 (r p y : ℝ) :
    rotation_rpy r p y 1 2 = Real.sin y * Real.sin p * Real.cos r - Real.cos y * Real.sin r := by
  rw [rotation_rpy_entries]
  simp [Matrix.vecHead, Matrix.vecTail]

theorem rotation_rpy_20 (r p y : ℝ) : rotation_rpy r p y 2 0 = -Real.sin p := by
  rw [rotation_rpy_entries]
  simp [Matrix.vecHead, Matrix.vecTail]

theorem rotation_rpy_21 (r p y : ℝ) : rotation_rpy r p y 2 1 = Real.cos p * Real.sin r := by
  rw [rotation_rpy_entries]
  simp [Matrix.vecHead, Matrix.vecTail]

theorem rotation_rpy_22 (r p y : ℝ) : rotation_rpy r p y 2 2 = Real.cos p * Real.cos r := by
  rw [rotation_rpy_entries]
  simp [Matrix.vecHead, Matrix.vecTail]

theorem sqrt_first_column (p y : ℝ) :
    Real.sqrt ((Real.cos y * Real.cos p) ^ 2 + (Real.sin y * Real.cos p) ^ 2) = |Real.cos p| := by
  have h : (Real.cos y * Real.cos p) ^ 2 + (Real.sin y * Real.cos p) ^ 2 = (Real.cos p) ^ 2 := by
    nlinarith [Real.sin_sq_add_cos_sq y]
  rw [h, Real.sqrt_sq_eq_abs]

theorem get_set_regular (M : TMatrix) (r p y : ℝ)
    (hr : r ∈ Set.Ioc (-Real.pi) Real.pi)
    (hp : p ∈ Set.Icc (-(Real.pi / 2)) (Real.pi / 2))
    (hy : y ∈ Set.Ioc (-Real.pi) Real.pi)
    (hcp : (1e-6 : ℝ) ≤ Real.cos p) :
    get_rotation_rpy (set_rotation_rpy M r p y) = [r, p, y] := by
  have hcp0 : (0 : ℝ) < Real.cos p := lt_of_lt_of_le (by norm_num) hcp
  rw [get_rotation_rpy_eq, rotBlock_set_rotation_rpy, rotation_rpy_00, rotation_rpy_10,
    rotation_rpy_20, rotation_rpy_21, rotation_rpy_22, sqrt_first_column,
    abs_of_nonneg hcp0.le]
  rw [if_neg (by linarith)]
  have hroll : atan2 (Real.cos p * Real.sin r) (Real.cos p * Real.cos r) = r := by
    rw [atan2_smul_pos hcp0]
    exact atan2_cos_sin r hr
  have hpitch : atan2 (- -Real.sin p) (Real.cos p) = p := by
    rw [neg_neg]
    refine atan2_cos_sin p ⟨?_, ?_⟩
    · have := Real.pi_pos
      have := hp.1
      linarith
    · have := Real.pi_pos
      have := hp.2
      linarith
  have hyaw : atan2 (Real.sin y * Real.cos p) (Real.cos y * Real.cos p) = y := by
    rw [mul_comm (Real.sin y) (Real.cos p), mul_comm (Real.cos y) (Real.cos p),
      atan2_smul_pos hcp0]
    exact atan2_cos_sin y hy
  rw [hroll, hpitch, hyaw]

theorem get_set_gimbal_pos (M : TMatrix) (r y : ℝ) :
    get_rotation_rpy (set_rotation_rpy M r (Real.pi / 2) y) =
      [atan2 (Real.sin (r - y)) (Real.cos (r - y)), Real.pi / 2, 0] := by
  have h00 : rotation_rpy r (Real.pi / 2) y 0 0 = 0 := by
    rw [rotation_rpy_00, Real.cos_pi_div_two, mul_zero]
  have h10 : rotation_rpy r (Real.pi / 2) y 1 0 = 0 := by
    rw [rotation_rpy_10, Real.cos_pi_div_two, mul_zero]
  have h20 : rotation_rpy r (Real.pi / 2) y 2 0 = -1 := by
    rw [rotation_rpy_20, Real.sin_pi_div_two]
  have h01 : rotation_rpy r (Real.pi / 2) y 0 1 = Real.sin (r - y) := by
    rw [rotation_rpy_01, Real.sin_pi_div_two, Real.sin_sub]
    ring
  have h11 : rotation_rpy r (Real.pi / 2) y 1 1 = Real.cos (r - y) := by
    rw [rotation_rpy_11, Real.sin_pi_div_two, Real.cos_sub]
    ring
  rw [get_rotation_rpy_eq, rotBlock_set_rotation_rpy, h00, h10, h20, h01, h11]
  rw [if_pos (by norm_num)]
  rw [show (- (-1 : ℝ)) = 1 by norm_num, Real.arcsin_one, if_pos Real.pi_div_two_pos]

theorem get_set_gimbal_neg (M : TMatrix) (r y : ℝ) :
    get_rotation_rpy (set_rotation_rpy M r (-(Real.pi / 2)) y) =
      [atan2 (Real.sin (r + y)) (Real.cos (r + y)), -(Real.pi / 2), 0] := by
  have h00 : rotation_rpy r (-(Real.pi / 2)) y 0 0 = 0 := by
    rw [rotation_rpy_00, Real.cos_neg, Real.cos_pi_div_two, mul_zero]
  have h10 : rotation_rpy r (-(Real.pi / 2)) y 1 0 = 0 := by
    rw [rotation_rpy_10, Real.cos_neg, Real.cos_pi_div_two, mul_zero]
  have h20 : rotation_rpy r (-(Real.pi / 2)) y 2 0 = 1 := by
    rw [rotation_rpy_20, Real.sin_neg, Real.sin_pi_div_two, neg_neg]
  have h01 : rotation_rpy r (-(Real.pi / 2)) y 0 1 = -Real.sin (r + y) := by
    rw [rotation_rpy_01, Real.sin_neg, Real.sin_pi_div_two, Real.sin_add]
    ring
  have h11 : rotation_rpy r (-(Real.pi / 2)) y 1 1 = Real.cos (r + y) := by
    rw [rotation_rpy_11, Real.sin_neg, Real.sin_pi_div_two, Real.cos_add]
    ring
  rw [get_rotation_rpy_eq, rotBlock_set_rotation_rpy, h00, h10, h20, h01, h11]
  rw [if_pos (by norm_num)]
  rw [show (- (1 : ℝ)) = -1 by norm_num, Real.arcsin_neg_one, neg_neg,
    if_neg (by have := Real.pi_div_two_pos; intro hlt; linarith)]

theorem rotation_gimbal_pos_eq (r y : ℝ) :
    rotation_rpy (atan2 (Real.sin (r - y)) (Real.cos (r - y))) (Real.pi / 2) 0 =
      rotation_rpy r (Real.pi / 2) y := by
  have hcs : Real.cos (r - y) ^ 2 + Real.sin (r - y) ^ 2 = 1 := Real.cos_sq_add_sin_sq _
  have hc := cos_atan2_unit hcs
  have hs := sin_atan2_unit hcs
  rw [rotation_rpy_entries, rotation_rpy_entries]
  rw [Real.cos_pi_div_two, Real.sin_pi_div_two, Real.sin_zero, Real.cos_zero, hc, hs,
    Real.sin_sub, Real.cos_sub]
  funext i j
  fin_cases i <;> fin_cases j <;> (simp [Matrix.vecHead, Matrix.vecTail] <;> ring)

theorem rotation_gimbal_neg_eq (r y : ℝ) :
    rotation_rpy (atan2 (Real.sin (r + y)) (Real.cos (r + y))) (-(Real.pi / 2)) 0 =
      rotation_rpy r (-(Real.pi / 2)) y := by
  have hcs : Real.cos (r + y) ^ 2 + Real.sin (r + y) ^ 2 = 1 := Real.cos_sq_add_sin_sq _
  have hc := cos_atan2_unit hcs
  have hs := sin_atan2_unit hcs
  rw [rotation_rpy_entries, rotation_rpy_entries]
  rw [Real.cos_neg, Real.sin_neg, Real.cos_pi_div_two, Real.sin_pi_div_two, Real.sin_zero,
    Real.cos_zero, hc, hs, Real.sin_add, Real.cos_add]
  funext i j
  fin_cases i <;> fin_cases j <;> (simp [Matrix.vecHead, Matrix.vecTail] <;> ring)

theorem set_set_of_rotation_eq (M : TMatrix) (r p y r2 p2 y2 : ℝ)
    (h : rotation_rpy r2 p2 y2 = rotation_rpy r p y) :
    set_rotation_rpy (set_rotation_rpy M r p y) r2 p2 y2 = set_rotation_rpy M r p y := by
  funext i j
  by_cases hij : i.val < 3 ∧ j.val < 3
  · rw [set_rotation_rpy, dif_pos hij]
    show _ = set_rotation_rpy M r p y i j
    rw [set_rotation_rpy, dif_pos hij, h]
  · rw [set_rotation_rpy, dif_neg hij]

/-- Claim C2, amended: for every (roll, pitch, yaw) triple with each angle
in its principal range (roll, yaw in `(-π, π]`, pitch in `[-π/2, π/2]`) and
pitch away from the gimbal-lock boundary (`cos_pitch = sqrt(R00^2 + R10^2)
≥ 1e-6` after `set_rotation_rpy`), `get_rotation_rpy` after
`set_rotation_rpy` returns the same triple to within `1e-6` per angle (in
fact exactly); at the *exact* gimbal-lock boundary (pitch `±π/2`)
re-applying `set_rotation_rpy` to the extracted angles reproduces the same
rotation matrix to within `1e-6` — in fact exactly — under the source's
componentwise `Transform.__eq__` tolerance.  Strictly inside the singular
band (`0 < cos_pitch < 1e-6`), which the code also treats as gimbal lock,
the reproduction can miss the `1e-6` tolerance, so the original claim's
boundary case is amended from "cos_pitch < 1e-6" to "pitch = ±π/2". -/
theorem C2_rpy_roundtrip (M : TMatrix) (r p y : ℝ)
    (hr : r ∈ Set.Ioc (-Real.pi) Real.pi)
    (hp : p ∈ Set.Icc (-(Real.pi / 2)) (Real.pi / 2))
    (hy : y ∈ Set.Ioc (-Real.pi) Real.pi) :
    (¬ Real.sqrt ((rotBlock (set_rotation_rpy M r p y) 0 0) ^ 2 +
        (rotBlock (set_rotation_rpy M r p y) 1 0) ^ 2) < 1e-6 →
      |(get_rotation_rpy (set_rotation_rpy M r p y)).getD 0 0 - r| ≤ 1e-6 ∧
      |(get_rotation_rpy (set_rotation_rpy M r p y)).getD 1 0 - p| ≤ 1e-6 ∧
      |(get_rotation_rpy (set_rotation_rpy M r p y)).getD 2 0 - y| ≤ 1e-6) ∧
    ((p = Real.pi / 2 ∨ p = -(Real.pi / 2)) →
      transform_eq
        (set_rotation_rpy (set_rotation_rpy M r p y)
          ((get_rotation_rpy (set_rotation_rpy M r p y)).getD 0 0)
          ((get_rotation_rpy (set_rotation_rpy M r p y)).getD 1 0)
          ((get_rotation_rpy (set_rotation_rpy M r p y)).getD 2 0))
        (set_rotation_rpy M r p y)) := by
  constructor
  · intro hcp
    rw [rotBlock_set_rotation_rpy, rotation_rpy_00, rotation_rpy_10, sqrt_first_column] at hcp
    have hcpge : (1e-6 : ℝ) ≤ Real.cos p := by
      have habs : |Real.cos p| = Real.cos p := abs_of_nonneg (Real.cos_nonneg_of_mem_Icc hp)
      rw [habs] at hcp
      linarith [not_lt.mp hcp]
    rw [get_set_regular M r p y hr hp hy hcpge]
    norm_num
  · rintro (hp2 | hp2) <;> subst hp2
    · rw [get_set_gimbal_pos]
      simp only [List.getD_cons_zero, List.getD_cons_succ]
      exact transform_eq_of_eq (set_set_of_rotation_eq M r _ y _ _ _ (rotation_gimbal_pos_eq r y))
    · rw [get_set_gimbal_neg]
      simp only [List.getD_cons_zero, List.getD_cons_succ]
      exact transform_eq_of_eq (set_set_of_rotation_eq M r _ y _ _ _ (rotation_gimbal_neg_eq r y))

/-- Witness for claim C2, at roll = pitch = yaw = 0 on the identity matrix. -/
theorem C2_rpy_roundtrip_witness :
    ((0 : ℝ) ∈ Set.Ioc (-Real.pi) Real.pi ∧
     (0 : ℝ) ∈ Set.Icc (-(Real.pi / 2)) (Real.pi / 2)) ∧
    ((¬ Real.sqrt ((rotBlock (set_rotation_rpy identityTransform 0 0 0) 0 0) ^ 2 +
        (rotBlock (set_rotation_rpy identityTransform 0 0 0) 1 0) ^ 2) < 1e-6 →
      |(get_rotation_rpy (set_rotation_rpy identityTransform 0 0 0)).getD 0 0 - 0| ≤ 1e-6 ∧
      |(get_rotation_rpy (set_rotation_rpy identityTransform 0 0 0)).getD 1 0 - 0| ≤ 1e-6 ∧
      |(get_rotation_rpy (set_rotation_rpy identityTransform 0 0 0)).getD 2 0 - 0| ≤ 1e-6) ∧
    (((0 : ℝ) = Real.pi / 2 ∨ (0 : ℝ) = -(Real.pi / 2)) →
      transform_eq
        (set_rotation_rpy (set_rotation_rpy identityTransform 0 0 0)
          ((get_rotation_rpy (set_rotation_rpy identityTransform 0 0 0)).getD 0 0)
          ((get_rotation_rpy (set_rotation_rpy identityTransform 0 0 0)).getD 1 0)
          ((get_rotation_rpy (set_rotation_rpy identityTransform 0 0 0)).getD 2 0))
        (set_rotation_rpy identityTransform 0 0 0))) := by
  have h1 : (0 : ℝ) ∈ Set.Ioc (-Real.pi) Real.pi := by
    constructor
    · have := Real.pi_pos
      linarith
    · exact Real.pi_pos.le
  have h2 : (0 : ℝ) ∈ Set.Icc (-(Real.pi / 2)) (Real.pi / 2) := by
    constructor
    · have := Real.pi_div_two_pos
      linarith
    · exact Real.pi_div_two_pos.le
  exact ⟨⟨h1, h2⟩, C2_rpy_roundtrip identityTransform 0 0 0 h1 h2 h1⟩

theorem atan2_zero_neg_one : atan2 0 (-1) = Real.pi := by
  unfold atan2
  rw [show (⟨-1, 0⟩ : ℂ) = -1 from by apply Complex.ext <;> simp]
  exact Complex.arg_neg_one

/-- A pitch angle strictly inside the code's singular band:
`0 < cos C2bandPitch = 9e-7 < 1e-6`. -/
noncomputable def C2bandPitch : ℝ := Real.arccos (9e-7)

theorem C2bandPitch_cos : Real.cos C2bandPitch = 9e-7 :=
  Real.cos_arccos (by norm_num) (by norm_num)

theorem C2bandPitch_mem : C2bandPitch ∈ Set.Icc (-(Real.pi / 2)) (Real.pi / 2) := by
  constructor
  · have h1 := Real.arccos_nonneg (9e-7)
    have h2 := Real.pi_div_two_pos
    unfold C2bandPitch
    linarith
  · exact Real.arccos_le_pi_div_two.mpr (by norm_num)

theorem C2bandPitch_pos : 0 < C2bandPitch := Real.arccos_pos.mpr (by norm_num)

theorem C2_band_get (M : TMatrix) :
    get_rotation_rpy (set_rotation_rpy M 0 C2bandPitch Real.pi) = [Real.pi, C2bandPitch, 0] := by
  have hcp_pos : (0 : ℝ) < Real.cos C2bandPitch := by rw [C2bandPitch_cos]; norm_num
  have hcp_small : Real.cos C2bandPitch < 1e-6 := by rw [C2bandPitch_cos]; norm_num
  have h20 : rotation_rpy 0 C2bandPitch Real.pi 2 0 = -Real.sin C2bandPitch :=
    rotation_rpy_20 0 C2bandPitch Real.pi
  have h01 : rotation_rpy 0 C2bandPitch Real.pi 0 1 = 0 := by
    rw [rotation_rpy_01, Real.sin_zero, Real.sin_pi, Real.cos_zero]
    ring
  have h11 : rotation_rpy 0 C2bandPitch Real.pi 1 1 = -1 := by
    rw [rotation_rpy_11, Real.sin_zero, Real.sin_pi, Real.cos_pi, Real.cos_zero]
    ring
  rw [get_rotation_rpy_eq, rotBlock_set_rotation_rpy, rotation_rpy_00, rotation_rpy_10,
    sqrt_first_column, h20, h01, h11, abs_of_nonneg hcp_pos.le, if_pos hcp_small, neg_neg,
    Real.arcsin_sin (by linarith [C2bandPitch_mem.1, Real.pi_div_two_pos]) C2bandPitch_mem.2,
    if_pos C2bandPitch_pos, atan2_zero_neg_one]

/-- Claim C2, counterexample: the claim's gimbal-lock case is the code's
singular branch `cos_pitch < 1e-6`, and strictly inside that band the
matrix reproduction within `1e-6` fails.  At roll 0, pitch `arccos(9e-7)`
(so `cos_pitch = 9e-7 < 1e-6`), yaw `π` — all in their principal ranges —
the extraction returns `[π, arccos(9e-7), 0]`, and re-applying
`set_rotation_rpy` yields a matrix whose `(0,0)` entry is `9e-7` while the
original's is `-9e-7`: they differ by `1.8e-6 > 1e-6`, so the rebuilt
rotation matrix is not equal under `Transform.__eq__`. -/
theorem C2_counterexample :
    ¬ (∀ (M : TMatrix) (r p y : ℝ),
        r ∈ Set.Ioc (-Real.pi) Real.pi →
        p ∈ Set.Icc (-(Real.pi / 2)) (Real.pi / 2) →
        y ∈ Set.Ioc (-Real.pi) Real.pi →
        ((¬ Real.sqrt ((rotBlock (set_rotation_rpy M r p y) 0 0) ^ 2 +
            (rotBlock (set_rotation_rpy M r p y) 1 0) ^ 2) < 1e-6 →
          |(get_rotation_rpy (set_rotation_rpy M r p y)).getD 0 0 - r| ≤ 1e-6 ∧
          |(get_rotation_rpy (set_rotation_rpy M r p y)).getD 1 0 - p| ≤ 1e-6 ∧
          |(get_rotation_rpy (set_rotation_rpy M r p y)).getD 2 0 - y| ≤ 1e-6) ∧
        (Real.sqrt ((rotBlock (set_rotation_rpy M r p y) 0 0) ^ 2 +
            (rotBlock (set_rotation_rpy M r p y) 1 0) ^ 2) < 1e-6 →
          transform_eq
            (set_rotation_rpy (set_rotation_rpy M r p y)
              ((get_rotation_rpy (set_rotation_rpy M r p y)).getD 0 0)
              ((get_rotation_rpy (set_rotation_rpy M r p y)).getD 1 0)
              ((get_rotation_rpy (set_rotation_rpy M r p y)).getD 2 0))
            (set_rotation_rpy M r p y)))) := by
  intro h
  have hcp_pos : (0 : ℝ) < Real.cos C2bandPitch := by rw [C2bandPitch_cos]; norm_num
  have hr0 : (0 : ℝ) ∈ Set.Ioc (-Real.pi) Real.pi := by
    constructor
    · have := Real.pi_pos
      linarith
    · exact Real.pi_pos.le
  have hypi : Real.pi ∈ Set.Ioc (-Real.pi) Real.pi := by
    constructor
    · have := Real.pi_pos
      linarith
    · exact le_refl _
  have hcl := h identityTransform 0 C2bandPitch Real.pi hr0 C2bandPitch_mem hypi
  have hsing : Real.sqrt
      ((rotBlock (set_rotation_rpy identityTransform 0 C2bandPitch Real.pi) 0 0) ^ 2 +
       (rotBlock (set_rotation_rpy identityTransform 0 C2bandPitch Real.pi) 1 0) ^ 2) < 1e-6 := by
    rw [rotBlock_set_rotation_rpy, rotation_rpy_00, rotation_rpy_10, sqrt_first_column,
      abs_of_nonneg hcp_pos.le, C2bandPitch_cos]
    norm_num
  have h2 := hcl.2 hsing
  rw [C2_band_get identityTransform] at h2
  simp only [List.getD_cons_zero, List.getD_cons_succ] at h2
  have hiso := h2 0 0
  have e2 : set_rotation_rpy (set_rotation_rpy identityTransform 0 C2bandPitch Real.pi)
      Real.pi C2bandPitch 0 0 0 = 9e-7 := by
    have hh := congrFun (congrFun (rotBlock_set_rotation_rpy
      (set_rotation_rpy identityTransform 0 C2bandPitch Real.pi) Real.pi C2bandPitch 0) 0) 0
    rw [rotation_rpy_00, Real.cos_zero, one_mul, C2bandPitch_cos] at hh
    exact hh
  have e1 : set_rotation_rpy identityTransform 0 C2bandPitch Real.pi 0 0 = -(9e-7) := by
    have hh := congrFun (congrFun (rotBlock_set_rotation_rpy
      identityTransform 0 C2bandPitch Real.pi) 0) 0
    rw [rotation_rpy_00, Real.cos_pi, C2bandPitch_cos,
      show ((-1 : ℝ) * 9e-7) = -(9e-7) by ring] at hh
    exact hh
  rw [e2, e1] at hiso
  unfold isclose at hiso
  have b1 : |(9e-7 : ℝ) - -(9e-7)| = 1.8e-6 := by
    rw [show ((9e-7 : ℝ) - -(9e-7)) = 1.8e-6 by norm_num]
    exact abs_of_nonneg (by norm_num)
  have b2 : |(9e-7 : ℝ)| = 9e-7 := abs_of_nonneg (by norm_num)
  have b3 : |(-(9e-7) : ℝ)| = 9e-7 := by
    rw [abs_neg]
    exact abs_of_nonneg (by norm_num)
  rw [b1, b2, b3, max_self] at hiso
  rw [max_eq_right (by norm_num : (1e-9 : ℝ) * 9e-7 ≤ 1e-6)] at hiso
  norm_num at hiso

/-! ## Claim C3 : the rpy extraction convention -/

theorem matrix3d_to_rpy_eq (R : Fin 3 → Fin 3 → ℝ) :
    matrix3d_to_rpy R =
      if Real.sqrt (R 0 0 ^ 2 + R 1 0 ^ 2) < 1e-6 then
        [atan2 (-R 1 2) (R 1 1), atan2 (-R 2 0) (Real.sqrt (R 0 0 ^ 2 + R 1 0 ^ 2)), 0]
      else
        [atan2 (R 2 1) (R 2 2), atan2 (-R 2 0) (Real.sqrt (R 0 0 ^ 2 + R 1 0 ^ 2)),
         atan2 (R 1 0) (R 0 0)] := rfl

theorem claimed_rpy_convention_eq (R : Fin 3 → Fin 3 → ℝ) :
    claimed_rpy_convention R =
      if 1e-6 ≤ Real.sqrt (R 0 0 ^ 2 + R 1 0 ^ 2) then
        [atan2 (R 2 1) (R 2 2), atan2 (-R 2 0) (Real.sqrt (R 0 0 ^ 2 + R 1 0 ^ 2)),
         atan2 (R 1 0) (R 0 0)]
      else
        [if 0 < Real.arcsin (-R 2 0) then atan2 (R 0 1) (R 1 1) else atan2 (-R 0 1) (R 1 1),
         Real.arcsin (-R 2 0), 0] := rfl

/-- A gimbal-locked input on which `matrix3d_to_rpy` and the claimed
convention disagree. -/
noncomputable def C3counterMatrix : Fin 3 → Fin 3 → ℝ :=
  ![![0, 1, 0], ![0, 0, 0], ![-(1 / 2), 0, 0]]

theorem C3counterMatrix_matrix3d :
    matrix3d_to_rpy C3counterMatrix = [0, Real.pi / 2, 0] := by
  rw [matrix3d_to_rpy_eq]
  have h0 : C3counterMatrix 0 0 = 0 := rfl
  have h1 : C3counterMatrix 1 0 = 0 := rfl
  have h2 : C3counterMatrix 2 0 = -(1 / 2) := rfl
  have h3 : C3counterMatrix 1 2 = 0 := rfl
  have h4 : C3counterMatrix 1 1 = 0 := rfl
  rw [h0, h1, h2, h3, h4]
  rw [show ((0:ℝ)^2 + (0:ℝ)^2) = 0 by norm_num, Real.sqrt_zero]
  rw [if_pos (by norm_num)]
  rw [neg_zero, atan2_zero_zero, show (-(-(1/2) : ℝ)) = 1/2 by norm_num,
    atan2_pos_zero (by norm_num : (0:ℝ) < 1/2)]

theorem C3counterMatrix_claimed :
    claimed_rpy_convention C3counterMatrix = [Real.pi / 2, Real.pi / 6, 0] := by
  have harc : Real.arcsin (1 / 2) = Real.pi / 6 := by
    rw [show ((1:ℝ)/2) = Real.sin (Real.pi / 6) from (Real.sin_pi_div_six).symm]
    refine Real.arcsin_sin ?_ ?_
    · have := Real.pi_pos
      linarith
    · have := Real.pi_pos
      linarith
  rw [claimed_rpy_convention_eq]
  have h0 : C3counterMatrix 0 0 = 0 := rfl
  have h1 : C3counterMatrix 1 0 = 0 := rfl
  have h2 : C3counterMatrix 2 0 = -(1 / 2) := rfl
  have h3 : C3counterMatrix 0 1 = 1 := rfl
  have h4 : C3counterMatrix 1 1 = 0 := rfl
  rw [h0, h1, h2, h3, h4]
  rw [show ((0:ℝ)^2 + (0:ℝ)^2) = 0 by norm_num, Real.sqrt_zero]
  rw [if_neg (by norm_num)]
  rw [show (-(-(1/2) : ℝ)) = 1/2 by norm_num, harc]
  have hpos : (0 : ℝ) < Real.pi / 6 := by
    have := Real.pi_pos
    linarith
  rw [if_pos hpos, atan2_pos_zero (by norm_num : (0:ℝ) < 1)]

/-- Claim C3, counterexample: the claim asserts that both extraction
functions use the specified two-branch convention, but in the singular
branch `matrix3d_to_rpy` computes `roll = atan2(-R12, R11)`,
`pitch = atan2(-R20, s)` instead of the claimed pitch-sign-dependent
`roll` and `pitch = asin(-R20)`; the two disagree, e.g. on the matrix
with `R01 = 1`, `R20 = -1/2` and all other entries 0, where
`matrix3d_to_rpy` returns `[0, π/2, 0]` while the claimed convention
yields `[π/2, π/6, 0]`. -/
theorem C3_counterexample :
    ¬ ((∀ R : Fin 3 → Fin 3 → ℝ, matrix3d_to_rpy R = claimed_rpy_convention R) ∧
       (∀ M : TMatrix, get_rotation_rpy M = claimed_rpy_convention (rotBlock M))) := by
  rintro ⟨h1, _⟩
  have h := h1 C3counterMatrix
  rw [C3counterMatrix_matrix3d, C3counterMatrix_claimed] at h
  have h2 : (0 : ℝ) = Real.pi / 2 := by
    have := List.cons.injEq (0 : ℝ) [Real.pi / 2, 0] (Real.pi / 2) [Real.pi / 6, 0] ▸ h
    exact (List.cons.inj h).1
  have := Real.pi_pos
  linarith

/-- Claim C3, amended: `Transform.get_rotation_rpy` uses the claimed
two-branch convention on every input, and `matrix3d_to_rpy` uses it in the
non-singular branch (`s = sqrt(R00^2 + R10^2) ≥ 1e-6`); in the singular
branch, however, `matrix3d_to_rpy` instead computes
`roll = atan2(-R12, R11)` (independent of the sign of pitch),
`pitch = atan2(-R20, s)` and `yaw = 0`. -/
theorem C3_extraction_convention (M : TMatrix) (R : Fin 3 → Fin 3 → ℝ)
    (hs : ¬ Real.sqrt (R 0 0 ^ 2 + R 1 0 ^ 2) < 1e-6) :
    get_rotation_rpy M = claimed_rpy_convention (rotBlock M) ∧
    matrix3d_to_rpy R = claimed_rpy_convention R := by
  constructor
  · rw [get_rotation_rpy_eq, claimed_rpy_convention_eq]
    by_cases hlt : Real.sqrt ((rotBlock M 0 0) ^ 2 + (rotBlock M 1 0) ^ 2) < 1e-6
    · rw [if_pos hlt, if_neg (not_le.mpr hlt)]
    · rw [if_neg hlt, if_pos (not_lt.mp hlt)]
  · rw [matrix3d_to_rpy_eq, claimed_rpy_convention_eq, if_neg hs, if_pos (not_lt.mp hs)]

/-- A concrete non-singular input (the identity rotation) for the C3 witness. -/
noncomputable def identityRot3 : Fin 3 → Fin 3 → ℝ := ![![1, 0, 0], ![0, 1, 0], ![0, 0, 1]]

/-- Witness for the amended claim C3, at the identity rotation matrix. -/
theorem C3_extraction_convention_witness :
    (¬ Real.sqrt (identityRot3 0 0 ^ 2 + identityRot3 1 0 ^ 2) < 1e-6) ∧
    (get_rotation_rpy identityTransform = claimed_rpy_convention (rotBlock identityTransform) ∧
     matrix3d_to_rpy identityRot3 = claimed_rpy_convention identityRot3) := by
  have hs : ¬ Real.sqrt (identityRot3 0 0 ^ 2 + identityRot3 1 0 ^ 2) < 1e-6 := by
    rw [show identityRot3 0 0 = 1 from rfl, show identityRot3 1 0 = 0 from rfl]
    rw [show ((1:ℝ)^2 + (0:ℝ)^2) = 1 by norm_num, Real.sqrt_one]
    norm_num
  exact ⟨hs, C3_extraction_convention identityTransform identityRot3 hs⟩

/-! ## fusionsdf/pose.py : the Pose class and claim C7 -/

/-- A Pose: its Transform and the `relative_to` frame tag (`none` models
Python `None`). -/
structure PoseR where
  transform : TMatrix
  relative_to : Option String

/-- The `<pose>` XML element appended by `Pose.to_sdf_element`: the optional
`relative_to` attribute and the six values `translation + rotation` whose
space-joined string is the element text. -/
structure PoseElem where
  relative_to : Option String
  values : List ℝ

/-- `Pose.__init__(translation, rotation, relative_to)`. -/
noncomputable def pose_init (translation : Fin 3 → ℝ) (rotation : ℝ × ℝ × ℝ)
    (relative_to : Option String) : PoseR :=
  ⟨transform_init translation rotation, relative_to⟩

/-- The truthiness test `if self.relative_to:` on an optional string:
Python `None` and `''` are falsy. -/
def truthyFrame : Option String → Option String
  | none => none
  | some s => if s = "" then none else some s

open Classical in
/-- `Pose.to_sdf_element`: append no element when all six composed values are
below `1e-6` in absolute value, else append one `<pose>` element with the six
values and, when `relative_to` is truthy, the `relative_to` attribute. -/
noncomputable def to_sdf_element (p : PoseR) : Option PoseElem :=
  let translation := get_translation p.transform
  let rotation := get_rotation_rpy p.transform
  if ∀ v ∈ translation ++ rotation, |v| < 1e-6 then none
  else some ⟨truthyFrame p.relative_to, translation ++ rotation⟩

/-- Claim C7: `to_sdf_element` appends no pose element exactly when every one
of the six values (three translation components and the three extracted
roll-pitch-yaw angles) has absolute value `< 1e-6`; otherwise it appends
exactly one pose element carrying those six values and, when the
`relative_to` tag is set and non-empty, a `relative_to` attribute. -/
theorem C7_pose_suppression (p : PoseR) :
    ((∀ v ∈ get_translation p.transform ++ get_rotation_rpy p.transform, |v| < 1e-6) →
      to_sdf_element p = none) ∧
    (¬ (∀ v ∈ get_translation p.transform ++ get_rotation_rpy p.transform, |v| < 1e-6) →
      to_sdf_element p =
        some ⟨truthyFrame p.relative_to,
              get_translation p.transform ++ get_rotation_rpy p.transform⟩) := by
  constructor
  · intro h
    rw [to_sdf_element, if_pos h]
  · intro h
    rw [to_sdf_element, if_neg h]

theorem get_translation_init (t : Fin 3 → ℝ) (r p y : ℝ) :
    get_translation (set_rotation_rpy (set_translation identityTransform t) r p y) =
      [t 0, t 1, t 2] := by
  have key : ∀ i : Fin 3,
      set_rotation_rpy (set_translation identityTransform t) r p y i.castSucc 3 = t i := by
    intro i
    rw [set_rotation_rpy_outside _ _ _ _ (by intro h; exact Nat.lt_irrefl 3 h.2)]
    rw [set_translation, dif_pos ⟨i.isLt, rfl⟩]
    congr 1
  show [translPart _ 0, translPart _ 1, translPart _ 2] = [t 0, t 1, t 2]
  unfold translPart
  rw [key 0, key 1, key 2]

/-- Witness for claim C7: the spec's pose-suppression example, a Pose with
translation `(1e-9, 0, 0)` and rotation `(0, 0, 0)` serialises with no pose
element. -/
theorem C7_pose_suppression_witness :
    (∀ v ∈ get_translation (pose_init ![1e-9, 0, 0] (0, 0, 0) (some "__model__")).transform ++
        get_rotation_rpy (pose_init ![1e-9, 0, 0] (0, 0, 0) (some "__model__")).transform,
      |v| < 1e-6) ∧
    to_sdf_element (pose_init ![1e-9, 0, 0] (0, 0, 0) (some "__model__")) = none := by
  have h1 : (0 : ℝ) ∈ Set.Ioc (-Real.pi) Real.pi := by
    constructor
    · have := Real.pi_pos
      linarith
    · exact Real.pi_pos.le
  have h2 : (0 : ℝ) ∈ Set.Icc (-(Real.pi / 2)) (Real.pi / 2) := by
    constructor
    · have := Real.pi_div_two_pos
      linarith
    · exact Real.pi_div_two_pos.le
  have hv : ∀ v ∈ get_translation (pose_init ![1e-9, 0, 0] (0, 0, 0) (some "__model__")).transform ++
      get_rotation_rpy (pose_init ![1e-9, 0, 0] (0, 0, 0) (some "__model__")).transform,
      |v| < 1e-6 := by
    show ∀ v ∈ get_translation (transform_init ![1e-9, 0, 0] (0, 0, 0)) ++
        get_rotation_rpy (transform_init ![1e-9, 0, 0] (0, 0, 0)), |v| < 1e-6
    unfold transform_init
    rw [get_translation_init, get_set_regular _ 0 0 0 h1 h2 h1 (by rw [Real.cos_zero]; norm_num)]
    rw [show (![(1e-9 : ℝ), 0, 0] : Fin 3 → ℝ) 0 = 1e-9 from rfl,
      show (![(1e-9 : ℝ), 0, 0] : Fin 3 → ℝ) 1 = 0 from rfl,
      show (![(1e-9 : ℝ), 0, 0] : Fin 3 → ℝ) 2 = 0 from rfl]
    intro v hv
    simp only [List.mem_append, List.mem_cons, List.not_mem_nil, or_false] at hv
    rcases hv with (h | h | h) | (h | h | h) <;>
      rw [h, abs_of_nonneg (by norm_num)] <;> norm_num
  exact ⟨hv, (C7_pose_suppression _).1 hv⟩

/-! ## fusionsdf/sdf.py : the kinematic tree builder

The builder walks the Fusion CAD hierarchy.  The CAD side is modelled by
`Occ` (an occurrence: name, body count, and its component's rigid groups,
joints, as-built joints and child occurrences), `RGroup` (a rigid group:
name plus member occurrence names with their body counts) and `FJoint` (a
CAD joint: native type, axis vectors, rotation/slide limits, the two
occurrence names it connects, and its origin geometry).  Scalars are `ℚ`.
Link payloads (geometry, meshes, inertia) are omitted: no claim mentions
them; a stored `Link` is represented by its name.  A `Pose` whose rotation
is always zero (the only kind `add_joint` builds) is represented by its
translation list.  Python dicts become ordered association lists with
update-or-append assignment; occurrence attributes
(`attributes.add('FusionSDF', 'link_name', ...)`) become one global map
keyed by occurrence name (occurrence names are assumed distinct, as in
Fusion).  `itemByName(...).value` on a missing attribute raises in Python;
this is modelled by `Except`. -/

inductive JointType where
  | fixed
  | revolute
  | continuous
  | prismatic
deriving DecidableEq, Repr

inductive FusionJointType where
  | rigid
  | revolute
  | slider
  | other
deriving DecidableEq, Repr

structure FJoint where
  name : String
  jtype : FusionJointType
  rotationAxis : List ℚ
  rotMinEnabled : Bool
  rotMaxEnabled : Bool
  rotMin : ℚ
  rotMax : ℚ
  slideAxis : List ℚ
  slideMin : ℚ
  slideMax : ℚ
  occOneName : String
  occTwoName : String
  geometry : Option (List ℚ)
  geometryOrOriginOne : Option (List ℚ)
deriving DecidableEq, Repr

structure RGroup where
  name : String
  members : List (String × Nat)
deriving DecidableEq, Repr

inductive Occ where
  | mk (name : String) (numBodies : Nat) (rigidGroups : List RGroup)
      (compJoints : List FJoint) (compAsBuiltJoints : List FJoint) (children : List Occ)

def Occ.name : Occ → String
  | .mk n _ _ _ _ _ => n

def Occ.numBodies : Occ → Nat
  | .mk _ b _ _ _ _ => b

structure Design where
  rootName : String
  rootRigidGroups : List RGroup
  rootOccurrences : List Occ
  rootJoints : List FJoint
  rootAsBuiltJoints : List FJoint
  parametric : Bool
  userParams : List (String × Bool)

structure LinkM where
  name : String
deriving DecidableEq, Repr

structure SJoint where
  name : String
  joint_type : JointType
  pose : Option (List ℚ)
  parent : Option String
  child : Option String
  axis_xyz : Option (List ℚ)
  lower_limit : Option ℚ
  upper_limit : Option ℚ
deriving DecidableEq, Repr

structure SDFState where
  name : String
  links : List (String × LinkM)
  joints : List (String × SJoint)
  fusion_joints : List (FJoint × Bool × String)
  occurrences_in_rigid_groups : List (String × String)
  attrs : List (String × String)
  root_link : Option String
deriving DecidableEq, Repr

/-- Python dict assignment `m[k] = v`: replace in place when the key exists,
else append. -/
def dictInsert {α : Type} (m : List (String × α)) (k : String) (v : α) :
    List (String × α) :=
  if (List.lookup k m).isSome then m.map (fun kv => if kv.1 = k then (k, v) else kv)
  else m ++ [(k, v)]

/-- Python `k in m` for a dict. -/
def hasKey {α : Type} (m : List (String × α)) (k : String) : Bool :=
  (List.lookup k m).isSome

/-- `SDF.add_link` (sdf.py lines 94-187).  Only the parts observable by the
claims are modelled: the duplicate check, the rigid-group side-table check,
the `FusionSDF/link_name` attribute writes, the zero-bodies skip, and the
insertion into the links map.  Geometry/inertia payload construction is
omitted.  Returns the new state and the created link's name (`None` in
Python on every early return). -/
def add_link (st : SDFState) (occName : String) (numBodies : Nat) (pfx : String) :
    SDFState × Option String :=
  let link_name := pfx ++ (normalize_name occName)
  if hasKey st.links link_name then (st, none)
  else
    match List.lookup occName st.occurrences_in_rigid_groups with
    | some rgLink => ({ st with attrs := dictInsert st.attrs occName rgLink }, none)
    | none =>
      let st1 := { st with attrs := dictInsert st.attrs occName link_name }
      if numBodies = 0 then (st1, none)
      else ({ st1 with links := dictInsert st1.links link_name ⟨link_name⟩ }, some link_name)

/-- `SDF.add_rigid_group` (sdf.py lines 246-264): create a temporary
occurrence (Fusion names it `<component name>:1`) holding copies of all the
member occurrences' bodies, `add_link` it with an empty prefix and a pose
override, then record `member name → link_name + '_1'` in the side table
for every member.  The temporary occurrence is deleted immediately, so it is
modelled as a local value. -/
def add_rigid_group (st : SDFState) (rg : RGroup) (pfx : String) :
    SDFState × Option String :=
  let link_name := pfx ++ (normalize_name rg.name)
  let tempBodies := (rg.members.map Prod.snd).sum
  let res := add_link st (link_name ++ ":1") tempBodies ""
  let st1 := res.1
  let sideTable := rg.members.foldl
    (fun m mem => dictInsert m mem.1 (link_name ++ "_1")) st1.occurrences_in_rigid_groups
  let st2 := { st1 with occurrences_in_rigid_groups := sideTable }
  (st2, res.2)

mutual

/-- `SDF.parse_occurrence` (sdf.py lines 69-91): add the occurrence's link,
merge the component's rigid groups (remembering the last merge's link and,
if any, tagging this occurrence with its name), recurse into child
occurrences, and defer the component's joints (ordinary and as-built) into
the `fusion_joints` accumulation list. -/
def parse_occurrence (st : SDFState) : Occ → String → SDFState
  | .mk nm nb rgs js ajs children, pfx =>
    let st1 := (add_link st nm nb pfx).1
    let childrenPfx := pfx ++ (normalize_name nm) ++ "__"
    let rgRes := rgs.foldl (fun (acc : SDFState × Option String) rg =>
      add_rigid_group acc.1 rg childrenPfx) (st1, none)
    let st2 := rgRes.1
    let st3 := match rgRes.2 with
      | some l => { st2 with attrs := dictInsert st2.attrs nm l }
      | none => st2
    let st4 := parse_children st3 children childrenPfx
    let fj5 := st4.fusion_joints ++ js.map (fun j => (j, false, childrenPfx))
    let st5 := { st4 with fusion_joints := fj5 }
    let fj6 := st5.fusion_joints ++ ajs.map (fun j => (j, true, childrenPfx))
    { st5 with fusion_joints := fj6 }

/-- The `for suboccurrence in occurrence.childOccurrences` loop of
`parse_occurrence`. -/
def parse_children (st : SDFState) : List Occ → String → SDFState
  | [], _ => st
  | c :: cs, pfx => parse_children (parse_occurrence st c pfx) cs pfx

end

/-- The link-name resolution used for both endpoints of `SDF.add_joint`
(sdf.py lines 222-229): the rigid-group side table takes precedence, then
the `FusionSDF/link_name` attribute; a missing attribute raises in Python
(`itemByName` returns `None` and `.value` fails on it). -/
def resolve_link_name (st : SDFState) (occName : String) : Except String String :=
  match List.lookup occName st.occurrences_in_rigid_groups with
  | some l => .ok l
  | none =>
    match List.lookup occName st.attrs with
    | some v => .ok v
    | none => .error ("no link_name attribute on occurrence " ++ occName)

/-- `SDF.add_joint` (sdf.py lines 190-243): duplicate check, native joint
type mapping (unsupported falls back to fixed), revolute axis/limits with
continuous reclassification, prismatic axis and unit-converted limits,
parent/child resolution through the rigid-group side table or the
`link_name` attribute (a missing attribute raises in Python, modelled as
`Except.error`), the optional per-joint parent/child swap (negating the
axis), and the position-only joint pose. -/
def add_joint (d : Design) (st : SDFState) (fj : FJoint) (as_built : Bool) (pfx : String) :
    Except String SDFState :=
  let joint_name := pfx ++ (normalize_name fj.name)
  if hasKey st.joints joint_name then .ok st
  else
    let jt0 : JointType :=
      match fj.jtype with
      | .rigid => .fixed
      | .revolute => .revolute
      | .slider => .prismatic
      | .other => .fixed
    let step : JointType × Option (List ℚ) × Option ℚ × Option ℚ :=
      if jt0 = JointType.revolute then
        if fj.rotMinEnabled || fj.rotMaxEnabled then
          (JointType.revolute, some fj.rotationAxis, some fj.rotMin, some fj.rotMax)
        else (JointType.continuous, some fj.rotationAxis, none, none)
      else if jt0 = JointType.prismatic then
        (jt0, some fj.slideAxis, some (cm_to_m fj.slideMin), some (cm_to_m fj.slideMax))
      else (jt0, none, none, none)
    do
      let parent ← resolve_link_name st fj.occTwoName
      let child ← resolve_link_name st fj.occOneName
      let swap := d.parametric &&
        ((List.lookup (joint_name ++ "_SWAP_PARENT_CHILD") d.userParams).getD false)
      let resolved :=
        if swap then (child, parent, step.2.1.map (List.map Neg.neg))
        else (parent, child, step.2.1)
      let joint_origin := if as_built then fj.geometry else fj.geometryOrOriginOne
      let j : SJoint := ⟨joint_name, step.1, joint_origin.map cm_to_m_list,
        some resolved.1, some resolved.2.1, resolved.2.2, step.2.2.1, step.2.2.2⟩
      .ok { st with joints := dictInsert st.joints joint_name j }

/-- The traversal part of `SDF.parse_root_component` (sdf.py lines 35-51):
root-level rigid groups, root occurrences, root joints and as-built joints,
then the deferred `fusion_joints` list. -/
def build_phase (d : Design) : Except String SDFState :=
  let st0 : SDFState := ⟨normalize_name d.rootName, [], [], [], [], [], none⟩
  let st1 := d.rootRigidGroups.foldl (fun s rg => (add_rigid_group s rg "").1) st0
  let st2 := d.rootOccurrences.foldl (fun s o => parse_occurrence s o "") st1
  do
    let st3 ← d.rootJoints.foldlM (fun s j => add_joint d s j false "") st2
    let st4 ← d.rootAsBuiltJoints.foldlM (fun s j => add_joint d s j true "") st3
    st4.fusion_joints.foldlM (fun s x => add_joint d s x.1 x.2.1 x.2.2) st4

/-- The children (`joint.child`) of all stored joints. -/
def children_of (joints : List (String × SJoint)) : List String :=
  joints.filterMap (fun kv => kv.2.child)

/-- The root candidates of `SDF.parse_root_component` (sdf.py lines 53-60):
link names that are not the child of any joint.  Python computes this as a
set difference and picks `next(iter(...))`, whose order is unspecified; the
model keeps insertion order and picks the first. -/
def root_candidates (st : SDFState) : List String :=
  (st.links.map Prod.fst).filter (fun l => !(children_of st.joints).contains l)

/-- The root-selection and anchor-injection part of
`SDF.parse_root_component` (sdf.py lines 53-66): pick the root (or `None`),
append the dummy link `base_link` (its placeholder inertia payload is
omitted) and the fixed joint `base_link_joint` from `base_link` to the
selected root, and make `base_link` the root. -/
def finalize (st : SDFState) : SDFState :=
  let root_link := (root_candidates st).head?
  let st1 := { st with root_link := root_link }
  let st2 := { st1 with links := dictInsert st1.links "base_link" ⟨"base_link"⟩ }
  let anchor : SJoint := ⟨"base_link_joint", JointType.fixed, none, some "base_link",
    root_link, none, none, none⟩
  let st3 := { st2 with joints := dictInsert st2.joints "base_link_joint" anchor }
  { st3 with root_link := some "base_link" }

/-- `SDF.parse_root_component` (sdf.py lines 35-66). -/
def parse_root_component (d : Design) : Except String SDFState :=
  (build_phase d).map finalize

/-! ## Association-list lemmas for the builder state -/

theorem lookup_append_of_none {α : Type} {m : List (String × α)} {k : String}
    (h : List.lookup k m = none) (l2 : List (String × α)) :
    List.lookup k (m ++ l2) = List.lookup k l2 := by
  induction m with
  | nil => rfl
  | cons kv t ih =>
    rw [List.cons_append, List.lookup_cons]
    rw [List.lookup_cons] at h
    by_cases hk : (k == kv.1) = true
    · rw [hk] at h
      simp at h
    · rw [Bool.not_eq_true] at hk
      rw [hk] at h ⊢
      exact ih h

theorem hasKey_false_lookup_none {α : Type} {m : List (String × α)} {k : String}
    (h : hasKey m k = false) : List.lookup k m = none := by
  unfold hasKey at h
  exact Option.not_isSome_iff_eq_none.mp (by simp [h])

theorem dictInsert_of_not_hasKey {α : Type} {m : List (String × α)} {k : String}
    (h : hasKey m k = false) (v : α) : dictInsert m k v = m ++ [(k, v)] := by
  unfold dictInsert
  rw [if_neg]
  rw [hasKey_false_lookup_none h]
  simp

theorem hasKey_append {α : Type} (m1 m2 : List (String × α)) (k : String) :
    hasKey (m1 ++ m2) k = (hasKey m1 k || hasKey m2 k) := by
  unfold hasKey
  cases h : List.lookup k m1 with
  | none =>
    rw [lookup_append_of_none h]
    simp
  | some v =>
    have : List.lookup k (m1 ++ m2) = some v := by
      induction m1 with
      | nil => simp at h
      | cons kv t ih =>
        rw [List.cons_append, List.lookup_cons]
        rw [List.lookup_cons] at h
        by_cases hk : (k == kv.1) = true
        · rw [hk] at h ⊢
          exact h
        · rw [Bool.not_eq_true] at hk
          rw [hk] at h ⊢
          exact ih h
    rw [this]
    simp

theorem hasKey_iff_mem_keys {α : Type} (m : List (String × α)) (k : String) :
    hasKey m k = true ↔ k ∈ m.map Prod.fst := by
  unfold hasKey
  induction m with
  | nil => simp
  | cons kv t ih =>
    rw [List.lookup_cons, List.map_cons, List.mem_cons]
    by_cases hk : k = kv.1
    · rw [show (k == kv.1) = true from beq_iff_eq.mpr hk]
      simp [hk]
    · rw [show (k == kv.1) = false from beq_eq_false_iff_ne.mpr hk]
      simp [hk, ih]

theorem lookup_single_self {α : Type} (k : String) (v : α) :
    List.lookup k [(k, v)] = some v := by
  rw [List.lookup_cons]
  rw [show (k == k) = true from beq_iff_eq.mpr rfl]

theorem contains_children_iff (js : List (String × SJoint)) (l : String) :
    (children_of js).contains l = true ↔ ∃ kv ∈ js, kv.2.child = some l := by
  unfold children_of
  rw [List.elem_iff, List.mem_filterMap]

/-! ## Claim C4 : the tree invariant after a full build -/

/-- An optional joint endpoint naming an existing link. -/
def endpoint_in_links (links : List (String × LinkM)) : Option String → Bool
  | some n => hasKey links n
  | none => false

/-- Every stored joint's parent and child name keys of the links map. -/
def joints_resolve (st : SDFState) : Prop :=
  ∀ kv ∈ st.joints, endpoint_in_links st.links kv.2.parent = true ∧
    endpoint_in_links st.links kv.2.child = true

/-- `base_link` is the unique link that is not the child of any joint. -/
def base_link_unique_root (st : SDFState) : Prop :=
  ∀ l ∈ st.links.map Prod.fst, ((∀ kv ∈ st.joints, kv.2.child ≠ some l) ↔ l = "base_link")

/-- The anchoring joint is fixed, with parent `base_link` and child the
previously selected root. -/
def anchor_shape (st1 st : SDFState) : Prop :=
  List.lookup "base_link_joint" st.joints =
    some ⟨"base_link_joint", JointType.fixed, none, some "base_link",
      (root_candidates st1).head?, none, none, none⟩

/-- A design with two disconnected root occurrences, each with one body. -/
def C4design : Design :=
  ⟨"root", [], [.mk "A" 1 [] [] [] [], .mk "B" 1 [] [] [] []], [], [], false, []⟩

/-- The builder state for `C4design` before root selection. -/
def C4state1 : SDFState :=
  match build_phase C4design with
  | .ok s => s
  | .error _ => ⟨"", [], [], [], [], [], none⟩

/-- The final builder state for `C4design`. -/
def C4state : SDFState := finalize C4state1

/-- Claim C4, counterexample: on a design with two disconnected root
occurrences `A` and `B`, the build keeps both as links, the anchor joint's
child is only the first pick `a`, and so `b` is a second link that is not
the child of any joint — `base_link` is not the unique parentless link. -/
theorem C4_counterexample :
    ¬ (∀ (d : Design) (st1 st : SDFState), build_phase d = .ok st1 →
        parse_root_component d = .ok st →
        joints_resolve st ∧ base_link_unique_root st ∧ anchor_shape st1 st) := by
  intro h
  have h2 := (h C4design C4state1 C4state rfl rfl).2.1
  unfold base_link_unique_root at h2
  exact absurd h2 (by decide)

theorem endpoint_in_links_mono {m : List (String × LinkM)} {o : Option String}
    (l2 : List (String × LinkM)) (h : endpoint_in_links m o = true) :
    endpoint_in_links (m ++ l2) o = true := by
  cases o with
  | none => simp [endpoint_in_links] at h
  | some n =>
    simp only [endpoint_in_links] at h ⊢
    rw [hasKey_append, h]
    rfl

/-- Claim C4, amended: if after the traversal phase every stored joint's
parent and child name existing links, no link is named `base_link`, no joint
is named `base_link_joint`, and there is exactly one root candidate, then
after anchor injection every joint's parent and child are keys of the links
map, the injected `base_link` is the unique link that is not the child of
any joint, and the anchoring fixed joint has parent `base_link` and child
the previously selected root.  (Without these hypotheses the claim fails,
e.g. for two disconnected root occurrences or joints on body-less
occurrences.) -/
theorem C4_tree_invariant (d : Design) (st1 : SDFState) (r : String)
    (hb : build_phase d = .ok st1)
    (hres : joints_resolve st1)
    (hnb : hasKey st1.links "base_link" = false)
    (hnbj : hasKey st1.joints "base_link_joint" = false)
    (hroot : root_candidates st1 = [r]) :
    parse_root_component d = .ok (finalize st1) ∧
    joints_resolve (finalize st1) ∧ base_link_unique_root (finalize st1) ∧
    anchor_shape st1 (finalize st1) := by
  have hlinks : (finalize st1).links = st1.links ++ [("base_link", ⟨"base_link"⟩)] := by
    show dictInsert st1.links "base_link" ⟨"base_link"⟩ = _
    exact dictInsert_of_not_hasKey hnb _
  have hjoints : (finalize st1).joints = st1.joints ++
      [("base_link_joint", ⟨"base_link_joint", JointType.fixed, none, some "base_link",
        (root_candidates st1).head?, none, none, none⟩)] := by
    show dictInsert st1.joints "base_link_joint" _ = _
    exact dictInsert_of_not_hasKey hnbj _
  have hrmem : hasKey st1.links r = true := by
    rw [hasKey_iff_mem_keys]
    have hmem : r ∈ root_candidates st1 := by
      rw [hroot]
      exact List.mem_singleton.mpr rfl
    unfold root_candidates at hmem
    exact (List.mem_filter.mp hmem).1
  refine ⟨?_, ?_, ?_, ?_⟩
  · rw [parse_root_component, hb]
    rfl
  · intro kv hkv
    rw [hjoints] at hkv
    rw [hlinks]
    rcases List.mem_append.mp hkv with h | h
    · exact ⟨endpoint_in_links_mono _ (hres kv h).1, endpoint_in_links_mono _ (hres kv h).2⟩
    · rw [List.mem_singleton.mp h]
      constructor
      · show endpoint_in_links _ (some "base_link") = true
        simp only [endpoint_in_links]
        rw [hasKey_append]
        have : hasKey [("base_link", (⟨"base_link"⟩ : LinkM))] "base_link" = true := by decide
        rw [this]
        simp
      · show endpoint_in_links _ ((root_candidates st1).head?) = true
        rw [hroot]
        exact endpoint_in_links_mono _ hrmem
  · intro l hl
    rw [hlinks, List.map_append, List.mem_append] at hl
    constructor
    · intro hnc
      by_contra hne
      have hlmem : l ∈ st1.links.map Prod.fst := by
        rcases hl with h | h
        · exact h
        · exact absurd (List.mem_singleton.mp h) hne
      have hnotchild : (children_of st1.joints).contains l = false := by
        by_contra hcc
        rw [Bool.not_eq_false] at hcc
        obtain ⟨kv, hkv, hch⟩ := (contains_children_iff st1.joints l).mp hcc
        exact hnc kv (by rw [hjoints]; exact List.mem_append_left _ hkv) hch
      have hcand : l ∈ root_candidates st1 := by
        unfold root_candidates
        rw [List.mem_filter]
        exact ⟨hlmem, by rw [hnotchild]; rfl⟩
      rw [hroot] at hcand
      have hlr : l = r := List.mem_singleton.mp hcand
      refine hnc ("base_link_joint", ⟨"base_link_joint", JointType.fixed, none,
        some "base_link", (root_candidates st1).head?, none, none, none⟩) ?_ ?_
      · rw [hjoints]
        exact List.mem_append_right _ (List.mem_singleton.mpr rfl)
      · show (root_candidates st1).head? = some l
        rw [hroot, hlr]
        rfl
    · intro hbl kv hkv hch
      rw [hjoints] at hkv
      rcases List.mem_append.mp hkv with h | h
      · have hep := (hres kv h).2
        rw [hch, hbl] at hep
        simp only [endpoint_in_links] at hep
        rw [hnb] at hep
        exact absurd hep (by simp)
      · rw [List.mem_singleton.mp h] at hch
        have : (root_candidates st1).head? = some l := hch
        rw [hroot] at this
        have hrl : r = l := by
          have := Option.some.inj this
          exact this
        rw [hrl, hbl] at hrmem
        rw [hnb] at hrmem
        exact absurd hrmem (by simp)
  · unfold anchor_shape
    rw [hjoints, lookup_append_of_none (hasKey_false_lookup_none hnbj), lookup_single_self]

/-- A design with a single root occurrence `Arm` carrying one body. -/
def C4witnessDesign : Design := ⟨"root", [], [.mk "Arm" 1 [] [] [] []], [], [], false, []⟩

/-- The builder state for `C4witnessDesign` before root selection. -/
def C4witnessState1 : SDFState :=
  match build_phase C4witnessDesign with
  | .ok s => s
  | .error _ => ⟨"", [], [], [], [], [], none⟩

/-- Witness for the amended claim C4, at a design with the single root link
`arm`. -/
theorem C4_tree_invariant_witness :
    (build_phase C4witnessDesign = .ok C4witnessState1 ∧
     joints_resolve C4witnessState1 ∧
     hasKey C4witnessState1.links "base_link" = false ∧
     hasKey C4witnessState1.joints "base_link_joint" = false ∧
     root_candidates C4witnessState1 = ["arm"]) ∧
    (parse_root_component C4witnessDesign = .ok (finalize C4witnessState1) ∧
     joints_resolve (finalize C4witnessState1) ∧
     base_link_unique_root (finalize C4witnessState1) ∧
     anchor_shape C4witnessState1 (finalize C4witnessState1)) := by
  have h1 : build_phase C4witnessDesign = .ok C4witnessState1 := rfl
  have h2 : joints_resolve C4witnessState1 := by
    unfold joints_resolve
    decide
  have h3 : hasKey C4witnessState1.links "base_link" = false := by decide
  have h4 : hasKey C4witnessState1.joints "base_link_joint" = false := by decide
  have h5 : root_candidates C4witnessState1 = ["arm"] := by decide
  exact ⟨⟨h1, h2, h3, h4, h5⟩, C4_tree_invariant C4witnessDesign C4witnessState1 "arm" h1 h2 h3 h4 h5⟩

/-! ## Claim C8 : duplicate link/joint names are skipped -/

/-- Claim C8: adding a link or joint whose computed name
(`prefix + normalized name`) is already a key of the respective map leaves
the builder state unchanged (in particular both the links and joints maps):
the first-created entry is kept, the duplicate is skipped, and no further
processing happens for that entity (`add_link` returns `None`, `add_joint`
returns without error). -/
theorem C8_duplicate_skip (st : SDFState) (occName : String) (numBodies : Nat)
    (d : Design) (fj : FJoint) (as_built : Bool) (pfxL pfxJ : String)
    (hl : hasKey st.links (pfxL ++ normalize_name occName) = true)
    (hj : hasKey st.joints (pfxJ ++ normalize_name fj.name) = true) :
    add_link st occName numBodies pfxL = (st, none) ∧
    add_joint d st fj as_built pfxJ = .ok st := by
  constructor
  · rw [add_link, if_pos hl]
  · rw [add_joint, if_pos hj]

/-- A builder state that already stores a link `l1` and a joint `j1`. -/
def C8state : SDFState :=
  ⟨"m", [("l1", ⟨"l1"⟩)],
   [("j1", ⟨"j1", JointType.fixed, none, some "l1", some "l1", none, none, none⟩)],
   [], [], [], none⟩

/-- Witness for claim C8: re-adding an occurrence named `L1` (normalising to
the existing link name `l1`) and a joint named `J1` (normalising to the
existing joint name `j1`) leaves the state unchanged. -/
theorem C8_duplicate_skip_witness :
    (hasKey C8state.links ("" ++ normalize_name "L1") = true ∧
     hasKey C8state.joints ("" ++ normalize_name "J1") = true) ∧
    (add_link C8state "L1" 1 "" = (C8state, none) ∧
     add_joint ⟨"m", [], [], [], [], false, []⟩ C8state
       ⟨"J1", FusionJointType.rigid, [], false, false, 0, 0, [], 0, 0, "o1", "o2",
        none, none⟩ false "" = .ok C8state) := by
  have hl : hasKey C8state.links ("" ++ normalize_name "L1") = true := by decide
  have hj : hasKey C8state.joints ("" ++ normalize_name "J1") = true := by decide
  exact ⟨⟨hl, hj⟩, C8_duplicate_skip C8state "L1" 1 _ _ false "" "" hl hj⟩

/-! ## Claim C6 : revolute joint resolution -/

/-- Claim C6, amended: for a CAD joint whose native type maps to revolute
(fresh name, no parent/child swap configured), the rotation axis vector is
recorded, and numeric `(lower, upper)` limits are recorded exactly when *at
least one* limit bound is enabled (the values recorded are the minimum and
maximum limit values); only when *no* bound is enabled is the joint
reclassified from revolute to continuous, with no limits.  (The original
claim's "limits exactly when both bounds enabled / one bound means no
limits" fails: the code tests `isMinimumValueEnabled or
isMaximumValueEnabled`.) -/
theorem C6_revolute_resolution (d : Design) (st : SDFState) (fj : FJoint)
    (pfx : String) (st' : SDFState)
    (hpar : d.parametric = false)
    (hrev : fj.jtype = FusionJointType.revolute)
    (hfresh : hasKey st.joints (pfx ++ normalize_name fj.name) = false)
    (hok : add_joint d st fj false pfx = .ok st') :
    ∃ j : SJoint, List.lookup (pfx ++ normalize_name fj.name) st'.joints = some j ∧
      j.axis_xyz = some fj.rotationAxis ∧
      ((fj.rotMinEnabled || fj.rotMaxEnabled) = true →
        j.joint_type = JointType.revolute ∧ j.lower_limit = some fj.rotMin ∧
        j.upper_limit = some fj.rotMax) ∧
      ((fj.rotMinEnabled || fj.rotMaxEnabled) = false →
        j.joint_type = JointType.continuous ∧ j.lower_limit = none ∧ j.upper_limit = none) := by
  rw [add_joint] at hok
  rw [if_neg (by rw [hfresh]; simp)] at hok
  rw [hrev, hpar] at hok
  cases hp : resolve_link_name st fj.occTwoName with
  | error e =>
    rw [hp] at hok
    simp [Bind.bind, Except.bind] at hok
  | ok p =>
    rw [hp] at hok
    cases hc : resolve_link_name st fj.occOneName with
    | error e =>
      rw [hc] at hok
      simp [Bind.bind, Except.bind] at hok
    | ok c =>
      rw [hc] at hok
      simp only [Bind.bind, Except.bind, Bool.false_and, if_false, Bool.false_eq_true] at hok
      cases hb : (fj.rotMinEnabled || fj.rotMaxEnabled) with
      | true =>
        rw [hb] at hok
        simp only [if_true, if_pos rfl, Except.ok.injEq] at hok
        subst hok
        refine ⟨⟨pfx ++ normalize_name fj.name, JointType.revolute,
          Option.map cm_to_m_list fj.geometryOrOriginOne, some p, some c,
          some fj.rotationAxis, some fj.rotMin, some fj.rotMax⟩, ?_, rfl,
          fun _ => ⟨rfl, rfl, rfl⟩, fun hcontra => Bool.noConfusion hcontra⟩
        show List.lookup _ (dictInsert st.joints (pfx ++ normalize_name fj.name) _) = _
        rw [dictInsert_of_not_hasKey hfresh,
          lookup_append_of_none (hasKey_false_lookup_none hfresh), lookup_single_self]
      | false =>
        rw [hb] at hok
        simp only [if_true, if_pos rfl, Bool.false_eq_true, if_false, Except.ok.injEq] at hok
        subst hok
        refine ⟨⟨pfx ++ normalize_name fj.name, JointType.continuous,
          Option.map cm_to_m_list fj.geometryOrOriginOne, some p, some c,
          some fj.rotationAxis, none, none⟩, ?_, rfl,
          fun hcontra => Bool.noConfusion hcontra, fun _ => ⟨rfl, rfl, rfl⟩⟩
        show List.lookup _ (dictInsert st.joints (pfx ++ normalize_name fj.name) _) = _
        rw [dictInsert_of_not_hasKey hfresh,
          lookup_append_of_none (hasKey_false_lookup_none hfresh), lookup_single_self]

/-- An empty design used for the C6 runs (non-parametric, no user
parameters). -/
def C6design : Design := ⟨"m", [], [], [], [], false, []⟩

/-- A builder state whose attribute table resolves occurrences `o1` and
`o2`. -/
def C6state : SDFState := ⟨"m", [], [], [], [], [("o1", "l1"), ("o2", "l2")], none⟩

/-- A revolute CAD joint with only the minimum limit bound enabled. -/
def C6fj : FJoint :=
  ⟨"j1", FusionJointType.revolute, [0, 0, 1], true, false, -1, 1, [], 0, 0,
   "o1", "o2", none, none⟩

/-- The state after adding `C6fj`. -/
def C6stateAfter : SDFState :=
  match add_joint C6design C6state C6fj false "" with
  | .ok s => s
  | .error _ => C6state

/-- Claim C6, counterexample: a revolute joint with exactly one limit bound
enabled (minimum on, maximum off) *does* get numeric limits recorded and
stays revolute, because the code tests `isMinimumValueEnabled or
isMaximumValueEnabled`; the claim says such a joint carries no limits and
that limits are recorded exactly when both bounds are enabled. -/
theorem C6_counterexample :
    ¬ (∀ (d : Design) (st : SDFState) (fj : FJoint) (pfx : String) (st' : SDFState),
        d.parametric = false → fj.jtype = FusionJointType.revolute →
        hasKey st.joints (pfx ++ normalize_name fj.name) = false →
        add_joint d st fj false pfx = .ok st' →
        ∃ j : SJoint, List.lookup (pfx ++ normalize_name fj.name) st'.joints = some j ∧
          j.axis_xyz = some fj.rotationAxis ∧
          ((fj.rotMinEnabled = true ∧ fj.rotMaxEnabled = true) ↔
            (j.lower_limit ≠ none ∧ j.upper_limit ≠ none)) ∧
          ((fj.rotMinEnabled = false ∧ fj.rotMaxEnabled = false) →
            j.joint_type = JointType.continuous) ∧
          (fj.rotMinEnabled ≠ fj.rotMaxEnabled →
            j.lower_limit = none ∧ j.upper_limit = none)) := by
  intro h
  obtain ⟨j, hj, _, _, _, hone⟩ := h C6design C6state C6fj "" C6stateAfter rfl rfl (by decide) rfl
  have hv : List.lookup ("" ++ normalize_name C6fj.name) C6stateAfter.joints =
      some ⟨"j1", JointType.revolute, none, some "l2", some "l1", some [0, 0, 1],
        some (-1), some 1⟩ := by decide
  rw [hv] at hj
  have hje := Option.some.inj hj
  have hll := hone (by decide)
  rw [← hje] at hll
  exact absurd hll.1 (by decide)

/-- A revolute CAD joint with both limit bounds enabled. -/
def C6witnessFJ : FJoint :=
  ⟨"j2", FusionJointType.revolute, [1, 0, 0], true, true, -2, 2, [], 0, 0,
   "o1", "o2", none, none⟩

/-- The state after adding `C6witnessFJ`. -/
def C6witnessStateAfter : SDFState :=
  match add_joint C6design C6state C6witnessFJ false "" with
  | .ok s => s
  | .error _ => C6state

/-- Witness for the amended claim C6, at a revolute joint with both limit
bounds enabled. -/
theorem C6_revolute_resolution_witness :
    (C6design.parametric = false ∧ C6witnessFJ.jtype = FusionJointType.revolute ∧
     hasKey C6state.joints ("" ++ normalize_name C6witnessFJ.name) = false ∧
     add_joint C6design C6state C6witnessFJ false "" = .ok C6witnessStateAfter) ∧
    (∃ j : SJoint,
      List.lookup ("" ++ normalize_name C6witnessFJ.name) C6witnessStateAfter.joints = some j ∧
      j.axis_xyz = some C6witnessFJ.rotationAxis ∧
      ((C6witnessFJ.rotMinEnabled || C6witnessFJ.rotMaxEnabled) = true →
        j.joint_type = JointType.revolute ∧ j.lower_limit = some C6witnessFJ.rotMin ∧
        j.upper_limit = some C6witnessFJ.rotMax) ∧
      ((C6witnessFJ.rotMinEnabled || C6witnessFJ.rotMaxEnabled) = false →
        j.joint_type = JointType.continuous ∧ j.lower_limit = none ∧ j.upper_limit = none)) :=
  ⟨⟨rfl, rfl, by decide, rfl⟩,
   C6_revolute_resolution C6design C6state C6witnessFJ "" C6witnessStateAfter rfl rfl
     (by decide) rfl⟩
